import Mathlib

/-!
Verification development for the travelTools pipeline
(budget filter → scraper → summarizer → merge → normalize → web payload).

Each Python function the claims touch is shallowly embedded as an
executable Lean definition; browser/API interaction is modelled by
explicit behaviour oracles.  Python floats are modelled by `ℚ` (the code
only compares, truncates and averages them), Python ints by `ℤ`, and
fallible code by `Option`/`Except`.
-/

namespace TravelTools

/-! ## Data model (src/travel_tools/types.py)

Pydantic models.  `Review` has `str_strip_whitespace=True`, `text` with
`min_length=1`, `rating` constrained to `1 ≤ rating ≤ 5`; constructing a
`Review` is therefore fallible and is embedded as `Review.make`. -/

structure Review where
  text : String
  rating : ℤ
  date : String
  reviewer_name : Option String
deriving DecidableEq, Repr

/-- Leading and trailing whitespace removal on a character list. -/
def stripChars (cs : List Char) : List Char :=
  ((cs.dropWhile Char.isWhitespace).reverse.dropWhile Char.isWhitespace).reverse

/-- Whitespace stripping applied by pydantic's `str_strip_whitespace`
(Python `str.strip()` on every `str` field). -/
def pyStrip (s : String) : String := String.mk (stripChars s.toList)

/-- Embeds `Review(text=…, rating=…, date=…, reviewer_name=…)`: validation of the
pydantic model.  Fields are stripped first; then `text` must be non-empty
and `rating` must lie in `[1, 5]`. -/
def Review.make (text : String) (rating : ℤ) (date : String)
    (reviewer_name : Option String) : Option Review :=
  let t := pyStrip text
  if t ≠ "" ∧ 1 ≤ rating ∧ rating ≤ 5 then
    some ⟨t, rating, pyStrip date, reviewer_name.map pyStrip⟩
  else
    none

structure ReviewSummary where
  good_points : List String
  bad_points : List String
  ugly_points : List String
  overall_summary : String
  review_count_analyzed : ℤ
deriving DecidableEq, Repr

structure GoogleRating where
  hotel_name : String
  rating : Option ℚ := none
  review_count : Option ℤ := none
  reviews : List Review := []
deriving DecidableEq, Repr

/-! ## step2_scrape.py : review deduplication -/

namespace Scrape

/-- The identity key of a review: the `(text, rating, reviewer_name)`
triple used by `deduplicate_reviews` (the date is *not* part of the key). -/
def reviewKey (r : Review) : String × ℤ × Option String :=
  (r.text, r.rating, r.reviewer_name)

/-- The loop body of `deduplicate_reviews`: walk the list keeping a `seen`
set of keys, skipping any review whose key was already seen. -/
def dedupSeen (seen : List (String × ℤ × Option String)) :
    List Review → List Review
  | [] => []
  | r :: rs =>
    if reviewKey r ∈ seen then dedupSeen seen rs
    else r :: dedupSeen (reviewKey r :: seen) rs

/-- Embeds `deduplicate_reviews(reviews)`: remove duplicate reviews based on the
text/rating/name key, keeping the first occurrence of each key. -/
def deduplicate_reviews (reviews : List Review) : List Review :=
  dedupSeen [] reviews

/-- Stated from the spec's words ("contains exactly the first occurrence of
each distinct (text, rating, reviewer_name) triple of L, in first-seen
order"): keep the head — the first occurrence of its own key — and recurse
on the tail with all later occurrences of that key removed. -/
def firstOccurrenceList : List Review → List Review
  | [] => []
  | r :: rs =>
    r :: firstOccurrenceList (rs.filter fun s => reviewKey s ≠ reviewKey r)
termination_by l => l.length
decreasing_by
  simp only [List.length_cons]
  exact Nat.lt_succ_of_le (List.length_filter_le _ _)

theorem dedupSeen_nil (seen : List (String × ℤ × Option String)) :
    dedupSeen seen [] = [] := rfl

theorem dedupSeen_cons (seen : List (String × ℤ × Option String))
    (r : Review) (rs : List Review) :
    dedupSeen seen (r :: rs) =
      if reviewKey r ∈ seen then dedupSeen seen rs
      else r :: dedupSeen (reviewKey r :: seen) rs := rfl

/-- Extending the seen set by one key is the same as pre-filtering that key
away. -/
theorem dedupSeen_shift :
    ∀ (n : ℕ) (l : List Review), l.length ≤ n →
      ∀ (seen : List (String × ℤ × Option String)) (k : String × ℤ × Option String),
        dedupSeen (k :: seen) l =
          dedupSeen seen (l.filter fun r => reviewKey r ≠ k) := by
  intro n
  induction n with
  | zero =>
    intro l hl seen k
    have : l = [] := List.length_eq_zero.mp (Nat.le_zero.mp hl)
    subst this; rfl
  | succ n ih =>
    intro l hl seen k
    match l with
    | [] => rfl
    | r :: rs =>
      have hrs : rs.length ≤ n := Nat.le_of_succ_le_succ hl
      by_cases hk : reviewKey r = k
      · have hmem : reviewKey r ∈ k :: seen := by simp [hk]
        have hfil : (r :: rs).filter (fun s => decide (reviewKey s ≠ k)) =
            rs.filter fun s => decide (reviewKey s ≠ k) := by
          simp [List.filter_cons, hk]
        simp only [dedupSeen_cons, if_pos hmem, hfil]
        exact ih rs hrs seen k
      · have hfil : (r :: rs).filter (fun s => decide (reviewKey s ≠ k)) =
            r :: rs.filter fun s => decide (reviewKey s ≠ k) := by
          simp [List.filter_cons, hk]
        rw [hfil]
        by_cases hs : reviewKey r ∈ seen
        · have hmem : reviewKey r ∈ k :: seen := by simp [hs]
          simp only [dedupSeen_cons, if_pos hmem, if_pos hs]
          exact ih rs hrs seen k
        · have hmem : reviewKey r ∉ k :: seen := by
            simp [hk, hs]
          simp only [dedupSeen_cons, if_neg hmem, if_neg hs]
          congr 1
          have h1 : dedupSeen (reviewKey r :: k :: seen) rs =
              dedupSeen (k :: seen) (rs.filter fun s => reviewKey s ≠ reviewKey r) :=
            ih rs hrs (k :: seen) (reviewKey r)
          have hlen : (rs.filter fun s =>
              decide (reviewKey s ≠ reviewKey r)).length ≤ n :=
            le_trans (List.length_filter_le _ _) hrs
          have h2 : dedupSeen (k :: seen)
                (rs.filter fun s => reviewKey s ≠ reviewKey r) =
              dedupSeen seen ((rs.filter fun s => reviewKey s ≠ reviewKey r).filter
                fun s => reviewKey s ≠ k) :=
            ih _ hlen seen k
          have h3 : dedupSeen (reviewKey r :: seen)
                (rs.filter fun s => reviewKey s ≠ k) =
              dedupSeen seen ((rs.filter fun s => reviewKey s ≠ k).filter
                fun s => reviewKey s ≠ reviewKey r) := by
            have hlen' : (rs.filter fun s => decide (reviewKey s ≠ k)).length ≤ n :=
              le_trans (List.length_filter_le _ _) hrs
            exact ih _ hlen' seen (reviewKey r)
          rw [h1, h2, h3]
          congr 1
          rw [List.filter_filter, List.filter_filter]
          congr 1
          funext s
          exact Bool.and_comm _ _

/-- Embeds `deduplicate_reviews` produces exactly the first occurrence of each
distinct key, in first-seen order. -/
theorem deduplicate_reviews_eq_firstOccurrence :
    ∀ (l : List Review), deduplicate_reviews l = firstOccurrenceList l := by
  have main : ∀ (n : ℕ) (l : List Review), l.length ≤ n →
      deduplicate_reviews l = firstOccurrenceList l := by
    intro n
    induction n with
    | zero =>
      intro l hl
      have : l = [] := List.length_eq_zero.mp (Nat.le_zero.mp hl)
      subst this
      simp [deduplicate_reviews, dedupSeen, firstOccurrenceList]
    | succ n ih =>
      intro l hl
      match l with
      | [] => simp [deduplicate_reviews, dedupSeen, firstOccurrenceList]
      | r :: rs =>
        have hrs : rs.length ≤ n := Nat.le_of_succ_le_succ hl
        show dedupSeen [] (r :: rs) = firstOccurrenceList (r :: rs)
        rw [dedupSeen_cons]
        have hnot : reviewKey r ∉ ([] : List (String × ℤ × Option String)) := by
          simp
        rw [if_neg hnot]
        rw [dedupSeen_shift rs.length rs le_rfl [] (reviewKey r)]
        have hlen : (rs.filter fun s =>
            decide (reviewKey s ≠ reviewKey r)).length ≤ n :=
          le_trans (List.length_filter_le _ _) hrs
        have := ih (rs.filter fun s => reviewKey s ≠ reviewKey r) hlen
        rw [show dedupSeen [] (rs.filter fun s => reviewKey s ≠ reviewKey r) =
            deduplicate_reviews (rs.filter fun s => reviewKey s ≠ reviewKey r) from rfl]
        rw [this]
        rw [firstOccurrenceList]
  intro l
  exact main l.length l le_rfl

/-- No review surviving `dedupSeen seen` has a key from `seen`. -/
theorem dedupSeen_key_not_seen :
    ∀ (l : List Review) (seen : List (String × ℤ × Option String)),
      ∀ r ∈ dedupSeen seen l, reviewKey r ∉ seen := by
  intro l
  induction l with
  | nil => intro seen r hr; simp [dedupSeen] at hr
  | cons a l ih =>
    intro seen r hr
    rw [dedupSeen_cons] at hr
    by_cases h : reviewKey a ∈ seen
    · rw [if_pos h] at hr
      exact ih seen r hr
    · rw [if_neg h] at hr
      rcases List.mem_cons.mp hr with h1 | h1
      · subst h1; exact h
      · have := ih (reviewKey a :: seen) r h1
        intro hc
        exact this (List.mem_cons_of_mem _ hc)

/-- The keys of the output of `dedupSeen` are pairwise distinct. -/
theorem dedupSeen_keys_nodup :
    ∀ (l : List Review) (seen : List (String × ℤ × Option String)),
      ((dedupSeen seen l).map reviewKey).Nodup := by
  intro l
  induction l with
  | nil => intro seen; simp [dedupSeen]
  | cons a l ih =>
    intro seen
    rw [dedupSeen_cons]
    by_cases h : reviewKey a ∈ seen
    · rw [if_pos h]; exact ih seen
    · rw [if_neg h]
      simp only [List.map_cons, List.nodup_cons]
      refine ⟨?_, ih (reviewKey a :: seen)⟩
      intro hc
      rcases List.mem_map.mp hc with ⟨r, hr, hkey⟩
      have := dedupSeen_key_not_seen l (reviewKey a :: seen) r hr
      exact this (by simp [hkey])

/-- A list whose keys are pairwise distinct (and avoid `seen`) is left
unchanged by `dedupSeen`. -/
theorem dedupSeen_of_nodup :
    ∀ (l : List Review) (seen : List (String × ℤ × Option String)),
      (∀ r ∈ l, reviewKey r ∉ seen) → ((l.map reviewKey).Nodup) →
      dedupSeen seen l = l := by
  intro l
  induction l with
  | nil => intro seen _ _; rfl
  | cons a l ih =>
    intro seen hav hnd
    rw [dedupSeen_cons]
    have ha : reviewKey a ∉ seen := hav a (by simp)
    rw [if_neg ha]
    congr 1
    simp only [List.map_cons, List.nodup_cons] at hnd
    refine ih (reviewKey a :: seen) ?_ hnd.2
    intro r hr
    simp only [List.mem_cons]
    push_neg
    constructor
    · intro hc
      exact hnd.1 (List.mem_map.mpr ⟨r, hr, hc⟩)
    · exact hav r (List.mem_cons_of_mem _ hr)

/-- Claim C3: `deduplicate_reviews` is idempotent, and its output is exactly
the first occurrence of each distinct `(text, rating, reviewer_name)`
triple of the input, in first-seen order. -/
theorem deduplicate_reviews_idempotent_firstSeen (L : List Review) :
    deduplicate_reviews (deduplicate_reviews L) = deduplicate_reviews L ∧
      deduplicate_reviews L = firstOccurrenceList L := by
  constructor
  · exact dedupSeen_of_nodup (deduplicate_reviews L) [] (by simp)
      (dedupSeen_keys_nodup L [])
  · exact deduplicate_reviews_eq_firstOccurrence L

end Scrape

/-! ### Python value helpers shared by the scraper embedding -/

/-- Accumulator loop for whitespace splitting. -/
def wsGroupsAux (cur : List Char) : List Char → List (List Char)
  | [] => if cur.isEmpty then [] else [cur.reverse]
  | c :: cs =>
    if Char.isWhitespace c then
      if cur.isEmpty then wsGroupsAux [] cs
      else cur.reverse :: wsGroupsAux [] cs
    else wsGroupsAux (c :: cur) cs

/-- Python `str.split()` with no argument: split on whitespace runs and
drop empty pieces. -/
def pySplitWs (s : String) : List String :=
  (wsGroupsAux [] s.toList).map String.mk

/-- Split off the part before the first occurrence of `sep` (non-empty),
returning it together with the remainder after `sep`; `none` if `sep`
does not occur. -/
def splitFirst (sep : List Char) : List Char → Option (List Char × List Char)
  | [] => none
  | c :: cs =>
    if sep.isPrefixOf (c :: cs) then some ([], (c :: cs).drop sep.length)
    else
      match splitFirst sep cs with
      | some (pre, post) => some (c :: pre, post)
      | none => none

/-- Fuelled splitting loop (each found separator consumes at least one
character, so `fuel = length` always suffices). -/
def splitLoop (sep : List Char) : ℕ → List Char → List (List Char)
  | 0, cs => [cs]
  | fuel + 1, cs =>
    match splitFirst sep cs with
    | none => [cs]
    | some (pre, post) => pre :: splitLoop sep fuel post

/-- Python `s.split(sep)` for a non-empty separator: leftmost-first
splitting, keeping empty pieces. -/
def pySplitOn (s sep : String) : List String :=
  (splitLoop sep.toList s.toList.length s.toList).map String.mk

/-- Value of a non-empty digit string. -/
def digitsToNat (cs : List Char) : ℕ :=
  cs.foldl (fun a c => a * 10 + (c.toNat - 48)) 0

/-- Python `float(s)` on the plain decimal forms the scraped pages produce:
optional sign, digits with an optional fractional part, optional exponent
(`inf`/`nan` and underscore separators are outside this model; the code
never feeds them). `none` models a raised `ValueError`. -/
def pyFloat? (s : String) : Option ℚ :=
  let parseSign : List Char → Bool × List Char := fun cs =>
    match cs with
    | '+' :: rest => (false, rest)
    | '-' :: rest => (true, rest)
    | rest => (false, rest)
  let mantissa : List Char → Option ℚ := fun cs =>
    let ip := cs.takeWhile (· ≠ '.')
    let rest := cs.dropWhile (· ≠ '.')
    match rest with
    | [] => if !ip.isEmpty && ip.all Char.isDigit then some (digitsToNat ip) else none
    | _ :: fp =>
      if fp.any (· = '.') then none
      else if ip.isEmpty && fp.isEmpty then none
      else if ip.all Char.isDigit && fp.all Char.isDigit then
        some ((digitsToNat ip : ℚ) + (digitsToNat fp : ℚ) / (10 : ℚ) ^ fp.length)
      else none
  let cs := stripChars s.toList
  let (neg, cs) := parseSign cs
  let mant := cs.takeWhile fun c => c ≠ 'e' ∧ c ≠ 'E'
  let expPart := cs.dropWhile fun c => c ≠ 'e' ∧ c ≠ 'E'
  let applySign : ℚ → ℚ := fun q => if neg then -q else q
  match expPart with
  | [] => (mantissa mant).map applySign
  | _ :: ecs =>
    let (eneg, edigits) := parseSign ecs
    if !edigits.isEmpty && edigits.all Char.isDigit then
      (mantissa mant).map fun m =>
        let e : ℤ := if eneg then -(digitsToNat edigits : ℤ) else (digitsToNat edigits : ℤ)
        applySign (m * (10 : ℚ) ^ e)
    else none

/-- Python `round(q)` on a float: round half to even (banker's rounding). -/
def pyRound (q : ℚ) : ℤ :=
  let f : ℤ := ⌊q⌋
  let frac : ℚ := q - f
  if frac < 1 / 2 then f
  else if 1 / 2 < frac then f + 1
  else if f % 2 = 0 then f else f + 1

/-- Python `l[:n]` for an `int` bound `n` (a negative bound drops `-n`
elements from the end). -/
def pySliceTo {α : Type} (n : ℤ) (xs : List α) : List α :=
  if 0 ≤ n then xs.take n.toNat else xs.take (xs.length - (-n).toNat)

namespace Scrape

/-! ### Behaviour model of the browser page

The Playwright page is an uncontrolled external collaborator: the
embedding represents what its DOM yields to each of `scrape_reviews`' and
`scrape_hotel`'s lookups.  `none` for a text/attribute field models the
locator raising (not found / timeout) or the attribute being null — the
code treats both identically via `try/except` + `or` defaults.  The
scroll loops only influence which review nodes the live page has loaded,
which is represented directly by the oracle's node list. -/

/-- Extraction behaviour of one `div[data-review-id]` review node. -/
structure ElemBehavior where
  /-- Embeds `span.wiI7pd` text content (`none`: lookup raised or content null → `""`). -/
  text : Option String
  /-- Case `some r`: a visible "More" button was clicked and the text re-read as
  `r`; `none`: no button / not visible / click raised (text unchanged). -/
  moreClick : Option (Option String)
  /-- Combined star-rating text: the aria-label, element text, or the
  `span:has-text("/")` fallback; `none` = every lookup raised (rating
  defaults to 3). -/
  ratingText : Option String
  /-- Embeds `span.DZSIDd, span.xRkPPb` text (`none` → `"Unknown"`). -/
  dateText : Option String
  /-- Embeds `div.d4r55` reviewer-name text (`none` → `None`). -/
  nameText : Option String
deriving DecidableEq, Repr

/-- How the reviews panel behaves for one hotel. -/
inductive ReviewsPhase where
  /-- A `PlaywrightTimeoutError` escapes the body → caught → `[]`. -/
  | raiseTimeout
  /-- Any other exception escapes the body → caught → `[]`. -/
  | raiseOther
  /-- No selector of the Reviews-tab chain succeeded, even after the
  fallback click on the first place result → `[]`. -/
  | noTab
  /-- The Reviews tab was opened; these review nodes exist after the
  scrolling passes. -/
  | elems (es : List ElemBehavior)
deriving DecidableEq, Repr

/-- Review body text after the optional "More" expansion
(`text_elem.text_content() or text`). -/
def elemText (e : ElemBehavior) : String :=
  let t0 := e.text.getD ""
  match e.moreClick with
  | some (some t) => if t = "" then t0 else t
  | _ => t0

/-- Star rating of one node: `int(round(float(rating_text.split("/")[0].split()[0])))`,
any failure defaulting to 3. -/
def elemRating (e : ElemBehavior) : ℤ :=
  match e.ratingText with
  | none => 3
  | some rt =>
    match pySplitWs ((pySplitOn rt "/").headD "") with
    | [] => 3
    | np :: _ =>
      match pyFloat? np with
      | none => 3
      | some q => pyRound q

/-- Date string of one node, with a trailing `" on <platform>"` suffix
stripped. -/
def elemDate (e : ElemBehavior) : String :=
  let dt :=
    match e.dateText with
    | none => "Unknown"
    | some s => if s = "" then "Unknown" else s
  (pySplitOn dt " on ").headD dt

/-- Reviewer name of one node (`text or ""`, then `strip() if truthy else None`). -/
def elemName (e : ElemBehavior) : Option String :=
  match e.nameText with
  | none => none
  | some s => if s = "" then none else some (pyStrip s)

/-- Per-node extraction: discard texts shorter than 5 characters (an
extraction miss), then build the pydantic `Review` (whose own validation
failure is caught by the per-review `except` and skips the node). -/
def extractElem (e : ElemBehavior) : Option Review :=
  let text := elemText e
  if text = "" ∨ text.length < 5 then none
  else Review.make text (elemRating e) (elemDate e) (elemName e)

/-- Embeds `scrape_reviews(hotel_name, page, max_reviews, …)`: over-sample up to
`max(2*max_reviews, max_reviews + 10)` review nodes, extract each,
deduplicate, and truncate to `max_reviews`.  All failure paths return `[]`. -/
def scrape_reviews (phase : ReviewsPhase) (max_reviews : ℤ) : List Review :=
  match phase with
  | .raiseTimeout => []
  | .raiseOther => []
  | .noTab => []
  | .elems es =>
    let target_count := max (2 * max_reviews) (max_reviews + 10)
    let reviews := (pySliceTo target_count es).filterMap extractElem
    pySliceTo max_reviews (deduplicate_reviews reviews)

/-- Outcome of `page.goto` + `page.wait_for_selector('div[role="main"]')`. -/
inductive NavOutcome where
  | ok
  | timeout
  | raised
deriving DecidableEq, Repr

/-- Behaviour of the whole search page for one hotel. -/
structure HotelPageBehavior where
  nav : NavOutcome
  /-- aria-label of `span[role="img"][aria-label*="stars"]` (`none`:
  lookup raised or attribute null). -/
  ratingAria : Option String
  /-- aria-label or text of the review-count badge (`none`: raised or both
  null). -/
  countText : Option String
  reviewsPhase : ReviewsPhase
deriving DecidableEq, Repr

/-- Aggregate star rating: `float(rating_text.split()[0])`, every failure
swallowed to `None`. -/
def extractAggRating (b : HotelPageBehavior) : Option ℚ :=
  match b.ratingAria with
  | none => none
  | some t =>
    if t = "" then none
    else
      match pySplitWs t with
      | [] => none
      | np :: _ => pyFloat? np

/-- Aggregate review count: all digit characters of the badge text,
concatenated (thousands separators vanish); empty → `None`. -/
def extractReviewCount (b : HotelPageBehavior) : Option ℤ :=
  match b.countText with
  | none => none
  | some t =>
    if t = "" then none
    else
      let ds := t.toList.filter Char.isDigit
      if ds.isEmpty then none else some (digitsToNat ds : ℤ)

/-- Embeds `scrape_hotel(hotel_name, page, max_reviews, …)`: navigate, extract the
aggregate rating and review count (each failure degrading to `None`),
scrape reviews only when `max_reviews > 0`, and convert a page-level
timeout or any other escaping exception into a plain
`GoogleRating(hotel_name=hotel_name)` record.  The function is total:
no behaviour makes it raise to its caller. -/
def scrape_hotel (hotel_name : String) (b : HotelPageBehavior)
    (max_reviews : ℤ) : GoogleRating :=
  match b.nav with
  | .timeout => { hotel_name := hotel_name }
  | .raised => { hotel_name := hotel_name }
  | .ok =>
    { hotel_name := hotel_name
      rating := extractAggRating b
      review_count := extractReviewCount b
      reviews :=
        if 0 < max_reviews then scrape_reviews b.reviewsPhase max_reviews else [] }

/-- A page behaviour from which neither the rating nor the review-count
indicator is extractable and review extraction yields nothing — including
the case where the page load itself times out (or raises). -/
def noExtractableData (b : HotelPageBehavior) (max_reviews : ℤ) : Prop :=
  b.nav ≠ NavOutcome.ok ∨
    (extractAggRating b = none ∧ extractReviewCount b = none ∧
      (0 < max_reviews → scrape_reviews b.reviewsPhase max_reviews = []))

/-- Claim C1: For every hotel name, requested review maximum and page
behaviour with no extractable rating data, `scrape_hotel` returns (never
raises) the well-formed record with `rating = None`,
`review_count = None` and an empty — not missing — review list. -/
theorem scrape_hotel_null_safety (hotel_name : String)
    (b : HotelPageBehavior) (max_reviews : ℤ)
    (h : noExtractableData b max_reviews) :
    scrape_hotel hotel_name b max_reviews =
      { hotel_name := hotel_name, rating := none, review_count := none,
        reviews := [] } := by
  rcases h with h | ⟨h1, h2, h3⟩
  · cases hb : b.nav with
    | ok => exact absurd hb h
    | timeout => simp [scrape_hotel, hb]
    | raised => simp [scrape_hotel, hb]
  · cases hb : b.nav with
    | ok =>
      simp only [scrape_hotel, hb, h1, h2]
      by_cases hm : 0 < max_reviews
      · simp [hm, h3 hm]
      · simp [hm]
    | timeout => simp [scrape_hotel, hb]
    | raised => simp [scrape_hotel, hb]

/-- Witness for C1: a hotel whose page renders the results pane but no
rating indicator, no count badge and no Reviews tab. -/
theorem scrape_hotel_null_safety_witness :
    noExtractableData
        ⟨NavOutcome.ok, none, none, ReviewsPhase.noTab⟩ 10 ∧
      scrape_hotel "Grand Oasis Cancun"
          ⟨NavOutcome.ok, none, none, ReviewsPhase.noTab⟩ 10 =
        { hotel_name := "Grand Oasis Cancun", rating := none,
          review_count := none, reviews := [] } := by
  refine ⟨Or.inr ⟨rfl, rfl, fun _ => rfl⟩, ?_⟩
  exact scrape_hotel_null_safety _ _ _ (Or.inr ⟨rfl, rfl, fun _ => rfl⟩)

/-- Claim C4: For every page behaviour and requested maximum, the review
list returned by `scrape_reviews` has at most `max_reviews` elements, even
when the over-sampling pass collects more raw candidates. -/
theorem scrape_reviews_truncation (phase : ReviewsPhase) (max_reviews : ℤ)
    (hm : 0 ≤ max_reviews) :
    ((scrape_reviews phase max_reviews).length : ℤ) ≤ max_reviews := by
  cases phase with
  | raiseTimeout => simpa [scrape_reviews] using hm
  | raiseOther => simpa [scrape_reviews] using hm
  | noTab => simpa [scrape_reviews] using hm
  | elems es =>
    simp only [scrape_reviews, pySliceTo, if_pos hm]
    calc ((List.take max_reviews.toNat _).length : ℤ)
        ≤ (max_reviews.toNat : ℤ) := by
          exact_mod_cast List.length_take_le _ _
      _ = max_reviews := Int.toNat_of_nonneg hm

/-- A review node whose body text extraction yields `t` and whose other
lookups all fail (rating defaults to 3, date to "Unknown", no name). -/
def plainNode (t : String) : ElemBehavior :=
  { text := some t, moreClick := none, ratingText := none,
    dateText := none, nameText := none }

/-- Witness for C4: 12 candidate review nodes (three distinct texts, the
first one repeated 10 times by scroll re-rendering) still produce at most
— here exactly — the 2 requested reviews. -/
theorem scrape_reviews_truncation_witness :
    (0 : ℤ) ≤ 2 ∧
      ((scrape_reviews
          (ReviewsPhase.elems (List.replicate 10 (plainNode "Great beach and pools") ++
            [plainNode "Food was mediocre", plainNode "Lovely quiet rooms"]))
          2).length : ℤ) ≤ 2 ∧
      (scrape_reviews
          (ReviewsPhase.elems (List.replicate 10 (plainNode "Great beach and pools") ++
            [plainNode "Food was mediocre", plainNode "Lovely quiet rooms"]))
          2).length = 2 := by
  refine ⟨by decide, scrape_reviews_truncation _ 2 (by decide), by decide⟩

/-! ### Retry wrapper and batch loop (step2_scrape.py)

`scrape_with_retry` is `scrape_hotel` wrapped in tenacity's
`@retry(stop=stop_after_attempt(3), wait=wait_fixed(2))`.  The wrapped
callable is modelled as an oracle `f` of per-attempt outcomes (attempt
numbers start at 1, as in tenacity) — this is exactly the spec's "fake
extractor" scenario; the real `scrape_hotel` catches its own exceptions,
so only injected/unexpected errors ever reach the wrapper.  On
exhaustion tenacity raises a `RetryError` wrapping the last attempt's
exception; the batch loop catches every `Exception` alike, so the error
payload is modelled as that last attempt's error. -/

/-- Result of a tenacity-retried call: the final outcome, the number of
attempts actually made, and the sleeps performed between attempts. -/
structure RetryOutcome (α : Type) where
  result : Except String α
  attempts : ℕ
  sleeps : List ℕ
deriving Repr

/-- One tenacity run with a fixed wait: try attempt `n`; on error, stop
and propagate if no attempt budget remains, otherwise sleep and retry. -/
def retryFixedRun {α : Type} (f : ℕ → Except String α) (wait : ℕ) :
    (left : ℕ) → (attemptNo : ℕ) → RetryOutcome α
  | 0, n => ⟨f n, 1, []⟩
  | 1, n => ⟨f n, 1, []⟩
  | left + 2, n =>
    match f n with
    | .ok a => ⟨.ok a, 1, []⟩
    | .error _ =>
      let rest := retryFixedRun f wait (left + 1) (n + 1)
      ⟨rest.result, rest.attempts + 1, wait :: rest.sleeps⟩

/-- Embeds `scrape_with_retry(hotel_name, page, …)`: up to 3 total attempts with
a fixed 2-second wait between them. -/
def scrape_with_retry (f : ℕ → Except String GoogleRating) :
    RetryOutcome GoogleRating :=
  retryFixedRun f 2 3 1

/-- One iteration of `main`'s batch loop: a successful (possibly retried)
scrape is appended as-is; an escaping error is caught, logged, and a
placeholder `GoogleRating(hotel_name=hotel)` is appended instead. -/
def scrapeBatchStep (f : ℕ → Except String GoogleRating)
    (hotel : String) : GoogleRating :=
  match (scrape_with_retry f).result with
  | .ok r => r
  | .error _ => { hotel_name := hotel }

/-- Embeds `main`'s batch loop over the unique hotels: every hotel is processed,
one per iteration, regardless of earlier failures. -/
def scrapeBatch (hotels : List String)
    (oracle : String → ℕ → Except String GoogleRating) : List GoogleRating :=
  hotels.map fun h => scrapeBatchStep (oracle h) h

/-- Claim C2: `scrape_with_retry` makes at most 3 attempts with a fixed
2-second delay between attempts; an extractor failing twice then
succeeding yields the success; an always-failing extractor propagates its
error after the third attempt; and the batch loop then records a
placeholder rating (only the hotel name set) for that hotel while every
other hotel is still processed with its own result. -/
theorem scrape_with_retry_behavior (f : ℕ → Except String GoogleRating)
    (hotels : List String)
    (oracle : String → ℕ → Except String GoogleRating) :
    ((scrape_with_retry f).attempts ≤ 3 ∧
      ∀ w ∈ (scrape_with_retry f).sleeps, w = 2) ∧
    (∀ (r : GoogleRating) (e1 e2 : String),
      f 1 = .error e1 → f 2 = .error e2 → f 3 = .ok r →
        scrape_with_retry f = ⟨.ok r, 3, [2, 2]⟩) ∧
    (∀ (e : ℕ → String), (∀ n, f n = .error (e n)) →
        scrape_with_retry f = ⟨.error (e 3), 3, [2, 2]⟩) ∧
    ((scrapeBatch hotels oracle).length = hotels.length ∧
      (∀ (i : ℕ) (h : String), hotels.get? i = some h →
        (∀ n, 1 ≤ n → n ≤ 3 → ∃ e, oracle h n = .error e) →
        (scrapeBatch hotels oracle).get? i =
          some { hotel_name := h, rating := none, review_count := none,
                 reviews := [] }) ∧
      (∀ (j : ℕ) (h' : String), hotels.get? j = some h' →
        (scrapeBatch hotels oracle).get? j =
          some (scrapeBatchStep (oracle h') h'))) := by
  refine ⟨⟨?_, ?_⟩, ?_, ?_, ?_, ?_, ?_⟩
  · show (retryFixedRun f 2 3 1).attempts ≤ 3
    simp only [retryFixedRun]
    cases f 1 with
    | ok a => simp
    | error e =>
      simp only [retryFixedRun]
      cases f 2 with
      | ok a => simp
      | error e' => simp [retryFixedRun]
  · show ∀ w ∈ (retryFixedRun f 2 3 1).sleeps, w = 2
    simp only [retryFixedRun]
    cases f 1 with
    | ok a => simp
    | error e =>
      simp only [retryFixedRun]
      cases f 2 with
      | ok a => simp
      | error e' => simp [retryFixedRun]
  · intro r e1 e2 h1 h2 h3
    show retryFixedRun f 2 3 1 = _
    simp [retryFixedRun, h1, h2, h3]
  · intro e he
    show retryFixedRun f 2 3 1 = _
    simp [retryFixedRun, he 1, he 2, he 3]
  · simp [scrapeBatch]
  · intro i h hi hfail
    have hstep : scrapeBatchStep (oracle h) h =
        { hotel_name := h, rating := none, review_count := none,
          reviews := [] } := by
      obtain ⟨a1, h1⟩ := hfail 1 (by norm_num) (by norm_num)
      obtain ⟨a2, h2⟩ := hfail 2 (by norm_num) (by norm_num)
      obtain ⟨a3, h3⟩ := hfail 3 (by norm_num) (by norm_num)
      simp [scrapeBatchStep, scrape_with_retry, retryFixedRun, h1, h2, h3]
    rw [← hstep]
    simp only [scrapeBatch]
    rw [List.get?_map, hi]
    rfl
  · intro j h' hj
    simp only [scrapeBatch]
    rw [List.get?_map, hj]
    rfl

/-- Witness for C2: a fake extractor failing twice then succeeding returns
the success; an always-failing hotel gets a placeholder while the next
hotel in the batch is still scraped. -/
theorem scrape_with_retry_behavior_witness :
    scrape_with_retry
        (fun n => if n ≤ 2 then .error "net down"
                  else .ok { hotel_name := "A", rating := some (9/2) }) =
      ⟨.ok { hotel_name := "A", rating := some (9/2) }, 3, [2, 2]⟩ ∧
    scrapeBatch ["Bad Hotel", "Good Hotel"]
        (fun h _ => if h = "Bad Hotel" then .error "boom"
                    else .ok { hotel_name := h, rating := some 4 }) =
      [{ hotel_name := "Bad Hotel" },
       { hotel_name := "Good Hotel", rating := some 4 }] := by
  constructor
  · exact (scrape_with_retry_behavior _ [] (fun _ _ => .error "")).2.1
      { hotel_name := "A", rating := some (9/2) } "net down" "net down"
      (by norm_num) (by norm_num) (by norm_num)
  · have hbatch := (scrape_with_retry_behavior (fun _ => .error "")
      ["Bad Hotel", "Good Hotel"]
      (fun h _ => if h = "Bad Hotel" then .error "boom"
                  else .ok { hotel_name := h, rating := some 4 })).2.2.2
    obtain ⟨hlen, hbad, hall⟩ := hbatch
    have h0 := hbad 0 "Bad Hotel" rfl (fun n _ _ => ⟨"boom", rfl⟩)
    have h1 := hall 1 "Good Hotel" rfl
    have hgood : scrapeBatchStep
        ((fun h (_ : ℕ) => if h = "Bad Hotel" then (.error "boom" : Except String GoogleRating)
                  else .ok { hotel_name := h, rating := some 4 }) "Good Hotel")
        "Good Hotel" = { hotel_name := "Good Hotel", rating := some 4 } := by
      simp [scrapeBatchStep, scrape_with_retry, retryFixedRun]
    rw [hgood] at h1
    have hL : (scrapeBatch ["Bad Hotel", "Good Hotel"]
        (fun h _ => if h = "Bad Hotel" then .error "boom"
                    else .ok { hotel_name := h, rating := some 4 })).length = 2 := hlen
    match hEq : scrapeBatch ["Bad Hotel", "Good Hotel"]
        (fun h _ => if h = "Bad Hotel" then .error "boom"
                    else .ok { hotel_name := h, rating := some 4 }) with
    | [a, b] =>
      rw [hEq] at h0 h1
      simp only [List.get?] at h0 h1
      simp only [Option.some.injEq] at h0 h1
      rw [h0, h1]
    | [] => rw [hEq] at hL; simp at hL
    | [a] => rw [hEq] at hL; simp at hL
    | a :: b :: c :: rest => rw [hEq] at hL; simp at hL

end Scrape

/-! ## Datetimes, packages and merged hotels (types.py / step3_merge.py) -/

/-- A parsed `datetime.datetime` (the pipeline's dates carry no timezone
or microseconds). -/
structure PyDateTime where
  year : ℕ
  month : ℕ
  day : ℕ
  hour : ℕ
  minute : ℕ
  second : ℕ
deriving DecidableEq, Repr

/-- Chronological key: datetimes compare lexicographically by
(year, month, day, hour, minute, second). -/
def PyDateTime.key (d : PyDateTime) : ℕ :=
  ((((d.year * 13 + d.month) * 32 + d.day) * 24 + d.hour) * 60 + d.minute) * 60
    + d.second

def dtMin (a b : PyDateTime) : PyDateTime := if a.key ≤ b.key then a else b

def dtMax (a b : PyDateTime) : PyDateTime := if a.key ≤ b.key then b else a

def pad2 (n : ℕ) : String :=
  if n < 10 then "0" ++ toString n else toString n

def pad4 (n : ℕ) : String :=
  if n < 10 then "000" ++ toString n
  else if n < 100 then "00" ++ toString n
  else if n < 1000 then "0" ++ toString n
  else toString n

/-- Embeds `datetime.isoformat()` for a microsecond-free, naive datetime. -/
def PyDateTime.isoformat (d : PyDateTime) : String :=
  pad4 d.year ++ "-" ++ pad2 d.month ++ "-" ++ pad2 d.day ++ "T" ++
    pad2 d.hour ++ ":" ++ pad2 d.minute ++ ":" ++ pad2 d.second

/-- Field `spa_available` is typed `str | int | None` upstream. -/
inductive SpaVal where
  | str (s : String)
  | int (n : ℤ)
deriving DecidableEq, Repr

structure PackageDates where
  departure : PyDateTime
  return_date : PyDateTime
deriving DecidableEq, Repr

/-- The validated pydantic `HotelPackage` model. -/
structure HotelPackage where
  hotel_name : String
  city : String
  stars : Option ℤ := none
  room_type : String
  meal_plan_code : Option String := none
  meal_plan_label : Option String := none
  number_of_restaurants : Option ℤ := none
  spa_available : Option SpaVal := none
  thumbnail_url : Option String := none
  url : Option String := none
  drinks24h : Bool := false
  snacks24h : Bool := false
  adult_only : Option ℤ := none
  amenities : List String := []
  price : ℚ
  dates : PackageDates
deriving DecidableEq, Repr

structure PriceRange where
  min : ℚ
  max : ℚ
  avg : ℚ
deriving DecidableEq, Repr

structure HotelData where
  name : String
  city : String
  stars : Option ℤ
  google_rating : Option ℚ
  review_count : Option ℤ
  air_transat_url : Option String
  google_maps_url : String
  drinks24h : Bool
  snacks24h : Bool
  adult_only : Option ℤ
  number_of_restaurants : Option ℤ
  spa_available : Option SpaVal
  meal_plan_code : Option String
  meal_plan_label : Option String
  thumbnail_url : Option String
  departure_date : Option String
  return_date : Option String
  source : String
  price_range : PriceRange
  packages : List HotelPackage
  review_summary : Option ReviewSummary
deriving DecidableEq, Repr

def hexUpper (n : ℕ) : Char :=
  if n < 10 then Char.ofNat (48 + n) else Char.ofNat (55 + n)

/-- UTF-8 encoding of one character (as byte values). -/
def utf8Bytes (c : Char) : List ℕ :=
  let n := c.toNat
  if n < 128 then [n]
  else if n < 2048 then [192 + n / 64, 128 + n % 64]
  else if n < 65536 then [224 + n / 4096, 128 + (n / 64) % 64, 128 + n % 64]
  else [240 + n / 262144, 128 + (n / 4096) % 64, 128 + (n / 64) % 64,
        128 + n % 64]

/-- Embeds `urllib.parse.quote_plus`: UTF-8 percent-encoding with spaces as `+`
and the unreserved bytes (alphanumerics and `_.-~`) kept verbatim. -/
def pyQuotePlus (s : String) : String :=
  String.mk (((s.toList.map utf8Bytes).flatten.map (fun n =>
    if (48 ≤ n ∧ n ≤ 57) ∨ (65 ≤ n ∧ n ≤ 90) ∨ (97 ≤ n ∧ n ≤ 122) ∨
        n = 95 ∨ n = 45 ∨ n = 46 ∨ n = 126 then
      [Char.ofNat n]
    else if n = 32 then ['+']
    else ['%', hexUpper (n / 16), hexUpper (n % 16)])).flatten)

/-- Python truthiness filter for an optional string (`None` and `""` are
falsy). -/
def truthyStr : Option String → Option String
  | some s => if s = "" then none else some s
  | none => none

namespace Merge

/-! ### step3_merge.py : `merge_data`

`merge_data` receives the packages and ratings as plain JSON dicts.  A
package dict is modelled with `hotel_name` and `price` always present —
`merge_data` reads both directly before any validation, for the grouping
and the price aggregation — while `HotelPackage(**pkg_data)` validation
can fail; for these inputs that means a missing required field
(`city`/`room_type`) or a missing/unparseable `dates` value, modelled by
the corresponding `Option` being `none`. -/

structure RawPackage where
  hotel_name : String
  price : ℚ
  city : Option String := none
  room_type : Option String := none
  dates : Option PackageDates := none
  stars : Option ℤ := none
  meal_plan_code : Option String := none
  meal_plan_label : Option String := none
  number_of_restaurants : Option ℤ := none
  spa_available : Option SpaVal := none
  thumbnail_url : Option String := none
  url : Option String := none
  drinks24h : Bool := false
  snacks24h : Bool := false
  adult_only : Option ℤ := none
  amenities : List String := []
deriving DecidableEq, Repr

/-- Embeds `HotelPackage(**pkg_data)`: pydantic validation of one raw package. -/
def parsePackage (p : RawPackage) : Option HotelPackage :=
  match p.city, p.room_type, p.dates with
  | some city, some room_type, some dates =>
    some { hotel_name := p.hotel_name, city := city, stars := p.stars,
           room_type := room_type, meal_plan_code := p.meal_plan_code,
           meal_plan_label := p.meal_plan_label,
           number_of_restaurants := p.number_of_restaurants,
           spa_available := p.spa_available,
           thumbnail_url := p.thumbnail_url, url := p.url,
           drinks24h := p.drinks24h, snacks24h := p.snacks24h,
           adult_only := p.adult_only, amenities := p.amenities,
           price := p.price, dates := dates }
  | _, _, _ => none

/-- The `review_summary` payload of a rating dict, when it is a dict. -/
structure RawSummary where
  good_points : List String := []
  bad_points : List String := []
  ugly_points : List String := []
  overall_summary : String
  review_count_analyzed : ℤ
deriving DecidableEq, Repr

/-- Embeds `ReviewSummary(**summary_payload)`: strip whitespace, require a
non-empty overall summary and a non-negative analyzed count. -/
def parseSummary (s : RawSummary) : Option ReviewSummary :=
  if pyStrip s.overall_summary ≠ "" ∧ 0 ≤ s.review_count_analyzed then
    some ⟨s.good_points.map pyStrip, s.bad_points.map pyStrip,
          s.ugly_points.map pyStrip, pyStrip s.overall_summary,
          s.review_count_analyzed⟩
  else none

/-- One element of the ratings JSON list as `merge_data` reads it. -/
structure RawRating where
  hotel_name : String
  rating : Option ℚ := none
  review_count : Option ℤ := none
  /-- A `none` models the key being absent or its value not being a dict. -/
  review_summary : Option RawSummary := none
deriving DecidableEq, Repr

/-- Embeds `ratings_map = {r["hotel_name"]: r for r in ratings_data}` followed by
`ratings_map.get(name)`: an exact-string lookup where a later duplicate
name overwrites an earlier one. -/
def ratingsLookup (ratings_data : List RawRating) (name : String) :
    Option RawRating :=
  ratings_data.foldl
    (fun acc r => if r.hotel_name = name then some r else acc) none

/-- Key-collection loop of `defaultdict`: walk the names keeping a `seen`
set; a name enters the key list at its first occurrence. -/
def firstSeenAux (seen : List String) : List String → List String
  | [] => []
  | n :: rest =>
    if n ∈ seen then firstSeenAux seen rest
    else n :: firstSeenAux (n :: seen) rest

/-- Insertion order of the keys of a dict built by appending: the first
occurrence of each distinct value, in order. -/
def firstSeenNames (l : List String) : List String := firstSeenAux [] l

/-- Embeds `PriceRange(min=min(prices), max=max(prices), avg=mean(prices))` over
a group's prices.  A merged hotel always has at least one package, so the
empty case is unreachable; `statistics.mean` computes the exact rational
mean internally (it converts to `Fraction`) before the final float
conversion. -/
def pricesStats : List ℚ → PriceRange
  | [] => ⟨0, 0, 0⟩
  | q :: qs => ⟨qs.foldl min q, qs.foldl max q,
                (q :: qs).sum / ((q :: qs).length : ℚ)⟩

/-- The body of `merge_data`'s loop for one hotel-name group. -/
def mergeGroup (packages_data : List RawPackage)
    (ratings_data : List RawRating) (source : String)
    (hotel_name : String) : Option HotelData :=
  let hotel_pkgs := packages_data.filter (fun p => p.hotel_name = hotel_name)
  let rating_info := ratingsLookup ratings_data hotel_name
  let review_summary := (rating_info.bind (·.review_summary)).bind parseSummary
  let prices := hotel_pkgs.map (·.price)
  match hotel_pkgs.filterMap parsePackage with
  | [] => none
  | p0 :: rest =>
    let packages := p0 :: rest
    some
      { name := hotel_name
        city := p0.city
        stars := p0.stars
        google_rating := rating_info.bind (·.rating)
        review_count := rating_info.bind (·.review_count)
        air_transat_url := (packages.filterMap fun p => truthyStr p.url).head?
        google_maps_url :=
          "https://www.google.com/maps/search/" ++ pyQuotePlus hotel_name
        drinks24h := packages.any (·.drinks24h)
        snacks24h := packages.any (·.snacks24h)
        adult_only := (packages.filterMap (·.adult_only)).head?
        number_of_restaurants :=
          (packages.filterMap (·.number_of_restaurants)).head?
        spa_available := (packages.filterMap (·.spa_available)).head?
        meal_plan_code :=
          (packages.filterMap fun p => truthyStr p.meal_plan_code).head?
        meal_plan_label :=
          (packages.filterMap fun p => truthyStr p.meal_plan_label).head?
        thumbnail_url :=
          (packages.filterMap fun p => truthyStr p.thumbnail_url).head?
        departure_date :=
          some ((rest.map (·.dates.departure)).foldl dtMin
            p0.dates.departure).isoformat
        return_date :=
          some ((rest.map (·.dates.return_date)).foldl dtMax
            p0.dates.return_date).isoformat
        source := source
        price_range := pricesStats prices
        packages := packages
        review_summary := review_summary }

/-- Embeds `merge_data(packages_data, ratings_data, source)`: group the packages
by hotel name in first-seen order, merge each group, and drop groups with
no successfully parsed package. -/
def merge_data (packages_data : List RawPackage)
    (ratings_data : List RawRating) (source : String) : List HotelData :=
  (firstSeenNames (packages_data.map (·.hotel_name))).filterMap
    (mergeGroup packages_data ratings_data source)

theorem mergeGroup_name {packages_data : List RawPackage}
    {ratings_data : List RawRating} {source hotel_name : String}
    {h : HotelData}
    (hEq : mergeGroup packages_data ratings_data source hotel_name = some h) :
    h.name = hotel_name := by
  unfold mergeGroup at hEq
  dsimp only at hEq
  split at hEq
  · simp at hEq
  · simp only [Option.some.injEq] at hEq
    subst hEq
    rfl

theorem mergeGroup_price_range {packages_data : List RawPackage}
    {ratings_data : List RawRating} {source hotel_name : String}
    {h : HotelData}
    (hEq : mergeGroup packages_data ratings_data source hotel_name = some h) :
    h.price_range = pricesStats
      ((packages_data.filter (fun p => p.hotel_name = hotel_name)).map
        (·.price)) := by
  unfold mergeGroup at hEq
  dsimp only at hEq
  split at hEq
  · simp at hEq
  · simp only [Option.some.injEq] at hEq
    subst hEq
    rfl

theorem mem_merge_data {packages_data : List RawPackage}
    {ratings_data : List RawRating} {source : String} {h : HotelData}
    (hmem : h ∈ merge_data packages_data ratings_data source) :
    ∃ name, mergeGroup packages_data ratings_data source name = some h := by
  unfold merge_data at hmem
  rcases List.mem_filterMap.mp hmem with ⟨name, _, hname⟩
  exact ⟨name, hname⟩

/-- Claim C5: Every hotel in `merge_data`'s output carries the `PriceRange`
`(min, max, arithmetic mean)` of its own group's prices — the prices of
exactly the input packages bearing its hotel name. -/
theorem merge_data_price_range (packages_data : List RawPackage)
    (ratings_data : List RawRating) (source : String) (h : HotelData)
    (hmem : h ∈ merge_data packages_data ratings_data source) :
    h.price_range = pricesStats
      ((packages_data.filter (fun p => p.hotel_name = h.name)).map
        (·.price)) := by
  rcases mem_merge_data hmem with ⟨name, hg⟩
  have hn := mergeGroup_name hg
  rw [hn]
  exact mergeGroup_price_range hg

def pkgDreams1 : RawPackage :=
  { hotel_name := "Dreams Riviera Cancun", price := 4200,
    city := some "Cancun", room_type := some "AI",
    dates := some ⟨⟨2026, 2, 15, 0, 0, 0⟩, ⟨2026, 2, 22, 0, 0, 0⟩⟩ }

def pkgDreams2 : RawPackage :=
  { hotel_name := "Dreams Riviera Cancun", price := 8500,
    city := some "Cancun", room_type := some "AI",
    dates := some ⟨⟨2026, 4, 5, 0, 0, 0⟩, ⟨2026, 4, 12, 0, 0, 0⟩⟩ }

/-- Witness for C5: two packages of one hotel priced 4200 and 8500 merge
to the `PriceRange` (4200, 8500, 6350). -/
theorem merge_data_price_range_witness :
    (merge_data [pkgDreams1, pkgDreams2] [] "transat").map (·.price_range) =
      [⟨4200, 8500, 6350⟩] := by
  have hlen : (merge_data [pkgDreams1, pkgDreams2] [] "transat").length
      = 1 := by decide
  match hEq : merge_data [pkgDreams1, pkgDreams2] [] "transat" with
  | [] =>
    rw [hEq] at hlen
    simp at hlen
  | h :: t =>
    have hmem : h ∈ merge_data [pkgDreams1, pkgDreams2] [] "transat" := by
      rw [hEq]; exact List.mem_cons_self _ _
    have hpr := merge_data_price_range [pkgDreams1, pkgDreams2] [] "transat"
      h hmem
    have hname : h.name = "Dreams Riviera Cancun" := by
      have hn : (merge_data [pkgDreams1, pkgDreams2] [] "transat").map
          (·.name) = ["Dreams Riviera Cancun"] := by decide
      rw [hEq] at hn
      simp only [List.map_cons, List.cons.injEq] at hn
      exact hn.1
    have ht : t = [] := by
      rw [hEq] at hlen
      simp only [List.length_cons] at hlen
      exact List.length_eq_zero.mp (by omega)
    subst ht
    simp only [List.map_cons, List.map_nil]
    rw [hpr, hname]
    have hfil : (List.filter (fun p => p.hotel_name = "Dreams Riviera Cancun")
        [pkgDreams1, pkgDreams2]).map (·.price) = [4200, 8500] := rfl
    rw [hfil]
    simp only [List.cons.injEq, and_true]
    show PriceRange.mk ([(8500 : ℚ)].foldl min 4200)
        ([(8500 : ℚ)].foldl max 4200)
        (([4200, 8500] : List ℚ).sum / (([4200, 8500] : List ℚ).length : ℚ)) =
      ⟨4200, 8500, 6350⟩
    simp only [List.foldl_cons, List.foldl_nil, List.sum_cons, List.sum_nil,
      List.length_cons, List.length_nil]
    rw [min_def, max_def]
    norm_num [PriceRange.mk.injEq]

/-! ### C6: a group whose every package fails validation is dropped -/

theorem mergeGroup_none (packages_data : List RawPackage)
    (ratings_data : List RawRating) (source name : String)
    (hbad : ∀ p ∈ packages_data, p.hotel_name = name →
      parsePackage p = none) :
    mergeGroup packages_data ratings_data source name = none := by
  unfold mergeGroup
  dsimp only
  have hnil : (packages_data.filter
      (fun p => p.hotel_name = name)).filterMap parsePackage = [] := by
    rw [List.filterMap_eq_nil]
    intro p hp
    have hmp := List.mem_filter.mp hp
    exact hbad p hmp.1 (by simpa using hmp.2)
  rw [hnil]

theorem firstSeenAux_congr :
    ∀ (l seen₁ seen₂ : List String), (∀ x, x ∈ seen₁ ↔ x ∈ seen₂) →
      firstSeenAux seen₁ l = firstSeenAux seen₂ l := by
  intro l
  induction l with
  | nil => intro seen₁ seen₂ _; rfl
  | cons n rest ih =>
    intro seen₁ seen₂ hiff
    simp only [firstSeenAux]
    by_cases hn : n ∈ seen₁
    · rw [if_pos hn, if_pos ((hiff n).mp hn)]
      exact ih seen₁ seen₂ hiff
    · rw [if_neg hn, if_neg (fun hc => hn ((hiff n).mpr hc))]
      congr 1
      refine ih (n :: seen₁) (n :: seen₂) ?_
      intro x
      simp only [List.mem_cons]
      exact or_congr Iff.rfl (hiff x)

theorem firstSeenAux_notmem :
    ∀ (l : List String) (seen : List String) (n : String),
      (∀ x ∈ l, x ≠ n) →
      firstSeenAux (n :: seen) l = firstSeenAux seen l := by
  intro l
  induction l with
  | nil => intro seen n _; rfl
  | cons a rest ih =>
    intro seen n hne
    have han : a ≠ n := hne a (by simp)
    simp only [firstSeenAux, List.mem_cons]
    by_cases ha : a ∈ seen
    · rw [if_pos (Or.inr ha), if_pos ha]
      exact ih seen n (fun x hx => hne x (List.mem_cons_of_mem _ hx))
    · rw [if_neg (by simp [han, ha]), if_neg ha]
      congr 1
      have hswap : firstSeenAux (a :: n :: seen) rest =
          firstSeenAux (n :: a :: seen) rest := by
        refine firstSeenAux_congr rest _ _ ?_
        intro x
        simp only [List.mem_cons]
        tauto
      rw [hswap]
      exact ih (a :: seen) n (fun x hx => hne x (List.mem_cons_of_mem _ hx))

theorem firstSeenAux_filter (q : String → Bool) :
    ∀ (l seen : List String),
      firstSeenAux seen (l.filter q) = (firstSeenAux seen l).filter q := by
  intro l
  induction l with
  | nil => intro seen; rfl
  | cons n rest ih =>
    intro seen
    by_cases hq : q n
    · rw [List.filter_cons_of_pos hq]
      simp only [firstSeenAux]
      by_cases hn : n ∈ seen
      · rw [if_pos hn, if_pos hn]
        exact ih seen
      · rw [if_neg hn, if_neg hn]
        rw [List.filter_cons_of_pos hq]
        congr 1
        exact ih (n :: seen)
    · rw [List.filter_cons_of_neg (by simpa using hq)]
      simp only [firstSeenAux]
      by_cases hn : n ∈ seen
      · rw [if_pos hn]
        exact ih seen
      · rw [if_neg hn]
        rw [List.filter_cons_of_neg (by simpa using hq)]
        rw [← ih (n :: seen)]
        refine (firstSeenAux_notmem _ seen n ?_).symm
        intro x hx hxn
        have := List.mem_filter.mp hx
        rw [hxn] at this
        exact hq (by simpa using this.2)

theorem map_name_filter (ps : List RawPackage) (name : String) :
    (ps.filter fun p => p.hotel_name ≠ name).map (·.hotel_name) =
      (ps.map (·.hotel_name)).filter (· ≠ name) := by
  induction ps with
  | nil => rfl
  | cons p ps ih =>
    simp only [List.map_cons, List.filter_cons]
    by_cases h : p.hotel_name = name
    · rw [if_neg (by simp [h]), if_neg (by simp [h])]
      exact ih
    · rw [if_pos (by simp [h]), if_pos (by simp [h])]
      simp only [List.map_cons]
      rw [ih]

theorem group_filter_ne (ps : List RawPackage) (name k : String)
    (hk : k ≠ name) :
    (ps.filter fun p => p.hotel_name ≠ name).filter
        (fun p => p.hotel_name = k) =
      ps.filter (fun p => p.hotel_name = k) := by
  induction ps with
  | nil => rfl
  | cons p ps ih =>
    by_cases h2 : p.hotel_name = name
    · have h1 : ¬p.hotel_name = k := by
        rw [h2]; exact fun hc => hk hc.symm
      rw [show (p :: ps).filter (fun p => p.hotel_name ≠ name) =
          ps.filter (fun p => p.hotel_name ≠ name) from
        List.filter_cons_of_neg (by simp [h2])]
      rw [show (p :: ps).filter (fun p => p.hotel_name = k) =
          ps.filter (fun p => p.hotel_name = k) from
        List.filter_cons_of_neg (by simp [h1])]
      exact ih
    · rw [show (p :: ps).filter (fun p => p.hotel_name ≠ name) =
          p :: ps.filter (fun p => p.hotel_name ≠ name) from
        List.filter_cons_of_pos (by simp [h2])]
      by_cases h1 : p.hotel_name = k
      · rw [List.filter_cons_of_pos (by simp [h1]),
          List.filter_cons_of_pos (by simp [h1])]
        rw [ih]
      · rw [List.filter_cons_of_neg (by simp [h1]),
          List.filter_cons_of_neg (by simp [h1])]
        exact ih

theorem mergeGroup_filter_ne (ps : List RawPackage)
    (rs : List RawRating) (src name k : String) (hk : k ≠ name) :
    mergeGroup (ps.filter fun p => p.hotel_name ≠ name) rs src k =
      mergeGroup ps rs src k := by
  unfold mergeGroup
  rw [group_filter_ne ps name k hk]

theorem filterMap_drop_none (g : String → Option HotelData) (name : String)
    (hg : g name = none) (l : List String) :
    l.filterMap g = (l.filter (· ≠ name)).filterMap g := by
  induction l with
  | nil => rfl
  | cons a l ih =>
    by_cases ha : a = name
    · subst ha
      simp [List.filter_cons, List.filterMap_cons, hg, ih]
    · simp only [List.filterMap_cons, List.filter_cons]
      rw [if_pos (by simpa using ha)]
      simp only [List.filterMap_cons]
      cases g a with
      | none => exact ih
      | some v => rw [ih]

theorem filterMap_congr_mem (f g : String → Option HotelData) :
    ∀ l : List String, (∀ a ∈ l, f a = g a) →
      l.filterMap f = l.filterMap g := by
  intro l
  induction l with
  | nil => intro _; rfl
  | cons a l ih =>
    intro hfg
    simp only [List.filterMap_cons]
    rw [hfg a (by simp)]
    have := ih (fun x hx => hfg x (List.mem_cons_of_mem _ hx))
    cases g a with
    | none => exact this
    | some v => rw [this]

/-- Claim C6: A hotel-name group in which every package fails validation is
absent from `merge_data`'s output entirely, and removing that group's
packages from the input does not change the output — the failure never
aborts the merge of the remaining groups. -/
theorem merge_data_drops_invalid_group (ps : List RawPackage)
    (rs : List RawRating) (src name : String)
    (hbad : ∀ p ∈ ps, p.hotel_name = name → parsePackage p = none) :
    (∀ h ∈ merge_data ps rs src, h.name ≠ name) ∧
      merge_data ps rs src =
        merge_data (ps.filter fun p => p.hotel_name ≠ name) rs src := by
  have hnone : mergeGroup ps rs src name = none :=
    mergeGroup_none ps rs src name hbad
  constructor
  · intro h hmem heq
    rcases mem_merge_data hmem with ⟨k, hg⟩
    have hk : h.name = k := mergeGroup_name hg
    rw [heq] at hk
    rw [← hk] at hg
    rw [hnone] at hg
    exact Option.noConfusion hg
  · unfold merge_data
    rw [map_name_filter ps name]
    rw [show firstSeenNames
          ((ps.map (·.hotel_name)).filter (· ≠ name)) =
        (firstSeenNames (ps.map (·.hotel_name))).filter (· ≠ name) from
      firstSeenAux_filter _ _ []]
    rw [filterMap_drop_none (mergeGroup ps rs src) name hnone]
    refine filterMap_congr_mem _ _ _ ?_
    intro k hkmem
    have hk : k ≠ name := by
      have := List.mem_filter.mp hkmem
      simpa using this.2
    exact (mergeGroup_filter_ne ps rs src name k hk).symm

def pkgBadOnly : RawPackage := { hotel_name := "Hotel B", price := 100 }

def pkgGoodA : RawPackage :=
  { hotel_name := "Hotel A", price := 200, city := some "Cancun",
    room_type := some "STD",
    dates := some ⟨⟨2026, 1, 10, 0, 0, 0⟩, ⟨2026, 1, 17, 0, 0, 0⟩⟩ }

/-- Witness for C6: the group "Hotel B" (whose only package lacks the
required fields) is dropped, while "Hotel A" is still merged. -/
theorem merge_data_drops_invalid_group_witness :
    merge_data [pkgBadOnly, pkgGoodA] [] "transat" =
      merge_data ([pkgBadOnly, pkgGoodA].filter
        fun p => p.hotel_name ≠ "Hotel B") [] "transat" ∧
    (merge_data [pkgBadOnly, pkgGoodA] [] "transat").map (·.name) =
      ["Hotel A"] := by
  refine ⟨(merge_data_drops_invalid_group [pkgBadOnly, pkgGoodA] []
    "transat" "Hotel B" ?_).2, by decide⟩
  intro p hp hname
  rcases List.mem_cons.mp hp with h | h
  · subst h; rfl
  · rcases List.mem_cons.mp h with h' | h'
    · subst h'
      exact absurd hname (by decide)
    · exact absurd h' (by simp)

/-! ### C7: the hotel-name join is exact (case-sensitive) -/

theorem ratingsLookup_exact :
    ∀ (rs : List RawRating) (name : String)
      (acc : Option RawRating),
      (∀ r, acc = some r → r.hotel_name = name) →
      ∀ r, rs.foldl (fun a x => if x.hotel_name = name then some x else a)
          acc = some r → r.hotel_name = name := by
  intro rs
  induction rs with
  | nil => intro name acc hacc r hr; exact hacc r hr
  | cons x rs ih =>
    intro name acc hacc r hr
    simp only [List.foldl_cons] at hr
    refine ih name _ ?_ r hr
    intro r' hr'
    by_cases hx : x.hotel_name = name
    · rw [if_pos hx] at hr'
      cases hr'
      exact hx
    · rw [if_neg hx] at hr'
      exact hacc r' hr'

theorem mergeGroup_rating_fields {packages_data : List RawPackage}
    {ratings_data : List RawRating} {source hotel_name : String}
    {h : HotelData}
    (hEq : mergeGroup packages_data ratings_data source hotel_name = some h) :
    h.google_rating =
        (ratingsLookup ratings_data hotel_name).bind (·.rating) ∧
      h.review_count =
        (ratingsLookup ratings_data hotel_name).bind (·.review_count) ∧
      h.review_summary =
        ((ratingsLookup ratings_data hotel_name).bind
          (·.review_summary)).bind parseSummary := by
  unfold mergeGroup at hEq
  dsimp only at hEq
  split at hEq
  · simp at hEq
  · simp only [Option.some.injEq] at hEq
    subst hEq
    exact ⟨rfl, rfl, rfl⟩

/-- Claim C7, amended: The hotel name is an exact-match (case-sensitive)
join key: each merged hotel carries the rating fields of the rating
record whose `hotel_name` equals the group's name exactly (the last such
record, per dict overwrite), and when no rating matches exactly — for
example when the names differ only in letter case — every rating-derived
field is null rather than an error. -/
theorem merge_data_exact_join (ps : List RawPackage)
    (rs : List RawRating) (src : String) (h : HotelData)
    (hmem : h ∈ merge_data ps rs src) :
    h.google_rating = (ratingsLookup rs h.name).bind (·.rating) ∧
    h.review_count = (ratingsLookup rs h.name).bind (·.review_count) ∧
    (∀ r, ratingsLookup rs h.name = some r → r.hotel_name = h.name) ∧
    (ratingsLookup rs h.name = none →
      h.google_rating = none ∧ h.review_count = none ∧
        h.review_summary = none) := by
  rcases mem_merge_data hmem with ⟨name, hg⟩
  have hn : h.name = name := mergeGroup_name hg
  subst hn
  obtain ⟨h1, h2, h3⟩ := mergeGroup_rating_fields hg
  refine ⟨h1, h2, ?_, ?_⟩
  · intro r hr
    exact ratingsLookup_exact rs h.name none (by intro r' hr'; cases hr') r hr
  · intro hnone
    rw [hnone] at h1 h2 h3
    exact ⟨h1, h2, h3⟩

def pkgRiu : RawPackage :=
  { hotel_name := "Hotel Riu Palace", price := 5000, city := some "Cancun",
    room_type := some "DBL",
    dates := some ⟨⟨2026, 3, 1, 0, 0, 0⟩, ⟨2026, 3, 8, 0, 0, 0⟩⟩ }

def ratRiuLower : RawRating :=
  { hotel_name := "hotel riu palace", rating := some (9 / 2),
    review_count := some 12450 }

/-- Counterexample to C7 as stated: the package name `"Hotel Riu Palace"`
and the rating name `"hotel riu palace"` differ only in letter case, the
rating record carries `rating = 4.5` and `review_count = 12450`, yet
`merge_data` joins nothing — the merged hotel's rating fields are null,
so the join is not case-insensitive. -/
theorem merge_data_case_join_counterexample :
    pkgRiu.hotel_name = "Hotel Riu Palace" ∧
    ratRiuLower.hotel_name = "hotel riu palace" ∧
    ratRiuLower.rating = some (9 / 2) ∧
    ratRiuLower.review_count = some 12450 ∧
    (merge_data [pkgRiu] [ratRiuLower] "transat").map
        (fun h => (h.name, h.google_rating, h.review_count)) =
      [("Hotel Riu Palace", none, none)] := by
  refine ⟨rfl, rfl, rfl, rfl, ?_⟩
  rfl

/-- Witness for the amended C7: with no exactly-matching rating, all
rating fields of the merged hotel are null. -/
theorem merge_data_exact_join_witness :
    (merge_data [pkgRiu] [ratRiuLower] "transat").map
      (·.google_rating) = [none] := by
  have hlen : (merge_data [pkgRiu] [ratRiuLower] "transat").length = 1 := by
    decide
  match hEq : merge_data [pkgRiu] [ratRiuLower] "transat" with
  | [] => rw [hEq] at hlen; simp at hlen
  | h :: t =>
    have hmem : h ∈ merge_data [pkgRiu] [ratRiuLower] "transat" := by
      rw [hEq]; exact List.mem_cons_self _ _
    have hj := merge_data_exact_join [pkgRiu] [ratRiuLower] "transat" h hmem
    have hname : h.name = "Hotel Riu Palace" := by
      have hn : (merge_data [pkgRiu] [ratRiuLower] "transat").map
          (·.name) = ["Hotel Riu Palace"] := by decide
      rw [hEq] at hn
      simp only [List.map_cons, List.cons.injEq] at hn
      exact hn.1
    have ht : t = [] := by
      rw [hEq] at hlen
      simp only [List.length_cons] at hlen
      exact List.length_eq_zero.mp (by omega)
    have hmiss : ratingsLookup [ratRiuLower] h.name = none := by
      rw [hname]
      decide
    have hnull := hj.2.2.2 hmiss
    subst ht
    simp only [List.map_cons, List.map_nil]
    rw [hnull.1]

end Merge

namespace Filter

/-! ### step1_filter.py : `transform_transat_package` and `filter_packages` -/

def parseNatDigits (s : String) : Option ℕ :=
  let cs := s.toList
  if !cs.isEmpty && cs.all Char.isDigit then some (digitsToNat cs) else none

def daysInMonth (y m : ℕ) : ℕ :=
  if m = 2 then (if (y % 4 = 0 ∧ y % 100 ≠ 0) ∨ y % 400 = 0 then 29 else 28)
  else if m = 4 ∨ m = 6 ∨ m = 9 ∨ m = 11 then 30
  else 31

def parseDatePart (s : String) : Option (ℕ × ℕ × ℕ) :=
  match pySplitOn s "-" with
  | [ys, ms, ds] =>
    match parseNatDigits ys, parseNatDigits ms, parseNatDigits ds with
    | some y, some m, some d =>
      if ys.length = 4 ∧ ms.length = 2 ∧ ds.length = 2 ∧
          1 ≤ m ∧ m ≤ 12 ∧ 1 ≤ d ∧ d ≤ daysInMonth y m then
        some (y, m, d)
      else none
    | _, _, _ => none
  | _ => none

def parseTimePart (s : String) : Option (ℕ × ℕ × ℕ) :=
  match pySplitOn s ":" with
  | [hs, ms, ss] =>
    match parseNatDigits hs, parseNatDigits ms, parseNatDigits ss with
    | some h, some m, some sec =>
      if hs.length = 2 ∧ ms.length = 2 ∧ ss.length = 2 ∧
          h ≤ 23 ∧ m ≤ 59 ∧ sec ≤ 59 then
        some (h, m, sec)
      else none
    | _, _, _ => none
  | _ => none

/-- Modelled subset of pydantic's datetime validation: ISO `YYYY-MM-DD`,
optionally followed by `THH:MM:SS` — the shapes the Transat feed carries.
`none` models a `ValidationError` (in particular for the empty string
substituted for a missing date). -/
def parsePyDateTime (s : String) : Option PyDateTime :=
  match pySplitOn s "T" with
  | [d] => (parseDatePart d).map fun (y, m, dd) => ⟨y, m, dd, 0, 0, 0⟩
  | [d, t] =>
    match parseDatePart d, parseTimePart t with
    | some (y, m, dd), some (h, mi, sec) => some ⟨y, m, dd, h, mi, sec⟩
    | _, _ => none
  | _ => none

/-- The `hotel` sub-dict of one raw Transat package (a missing dict is the
same as one with every field absent). -/
structure TransatHotel where
  name : Option String := none
  city : Option String := none
  url : Option String := none
  transatStars : Option ℚ := none
  drinks24h : Option ℤ := none
  snacks24h : Option ℤ := none
  adultOnly : Option ℤ := none
  numberOfRestaurants : Option ℤ := none
deriving DecidableEq, Repr

/-- One raw package dict from the Transat API. -/
structure TransatPkg where
  hotel : TransatHotel := {}
  mealPlanCode : Option String := none
  totalPriceForGroup : Option ℚ := none
  departureDate : Option String := none
  returnDate : Option String := none
deriving DecidableEq, Repr

/-- The standard-format dict built by `transform_transat_package`, before
pydantic validation. -/
structure StdPackage where
  hotel_name : String
  city : String
  stars : Option ℤ
  room_type : String
  url : Option String
  drinks24h : Bool
  snacks24h : Bool
  adult_only : ℤ
  amenities : List String
  price : ℚ
  departure : String
  return_str : String
deriving DecidableEq, Repr

/-- Embeds `transform_transat_package(transat_pkg)`: map the Transat shape onto
the standard package shape (defaults for missing fields, amenity list
derived from the flags, stars rounded with Python's `round`). -/
def transform_transat_package (t : TransatPkg) : StdPackage :=
  let hotel := t.hotel
  let amenities :=
    (if t.mealPlanCode = some "AI" then ["All-Inclusive"] else []) ++
    (if hotel.adultOnly = some 1 then ["Adults Only"] else []) ++
    (if hotel.drinks24h = some 1 then ["24h Drinks"] else []) ++
    (if hotel.snacks24h = some 1 then ["24h Snacks"] else []) ++
    (let n := hotel.numberOfRestaurants.getD 0
     if 0 < n then [toString n ++ " Restaurants"] else [])
  { hotel_name := hotel.name.getD "Unknown Hotel"
    city := hotel.city.getD "Unknown"
    stars := hotel.transatStars.map pyRound
    room_type := t.mealPlanCode.getD "Standard"
    url := hotel.url
    drinks24h := decide (hotel.drinks24h = some 1)
    snacks24h := decide (hotel.snacks24h = some 1)
    adult_only := hotel.adultOnly.getD 0
    amenities := amenities
    price := t.totalPriceForGroup.getD 0
    departure := t.departureDate.getD ""
    return_str := t.returnDate.getD "" }

/-- Embeds `HotelPackage(**transformed)`: for a transformed Transat package the
only fallible validation step is parsing the two date strings. -/
def validateStdPackage (s : StdPackage) : Option HotelPackage :=
  match parsePyDateTime s.departure, parsePyDateTime s.return_str with
  | some dep, some ret =>
    some { hotel_name := s.hotel_name, city := s.city, stars := s.stars,
           room_type := s.room_type, url := s.url,
           drinks24h := s.drinks24h, snacks24h := s.snacks24h,
           adult_only := some s.adult_only, amenities := s.amenities,
           price := s.price, dates := ⟨dep, ret⟩ }
  | _, _ => none

/-- Embeds `filter_packages(packages_data, budget)`: transform each raw package,
validate it (skipping it with a warning on failure), and keep it exactly
when `pkg.price <= budget`. -/
def filter_packages (packages_data : List TransatPkg) (budget : ℚ) :
    List HotelPackage :=
  packages_data.filterMap fun pkg_data =>
    match validateStdPackage (transform_transat_package pkg_data) with
    | some pkg => if pkg.price ≤ budget then some pkg else none
    | none => none

/-- Claim C9: Budget filtering is inclusive: a valid package priced exactly
at the budget ceiling is kept, and one priced strictly above it is
excluded. -/
theorem filter_packages_budget_boundary (t : TransatPkg) (B : ℚ)
    (p : HotelPackage)
    (hv : validateStdPackage (transform_transat_package t) = some p) :
    (p.price = B → filter_packages [t] B = [p]) ∧
    (B < p.price → filter_packages [t] B = []) := by
  constructor
  · intro hpB
    unfold filter_packages
    simp only [List.filterMap_cons, List.filterMap_nil, hv]
    rw [if_pos (le_of_eq hpB)]
  · intro hlt
    unfold filter_packages
    simp only [List.filterMap_cons, List.filterMap_nil, hv]
    rw [if_neg (not_le.mpr hlt)]

def tPkg : TransatPkg :=
  { hotel := { name := some "Grand Oasis", city := some "Cancun",
               drinks24h := some 1, numberOfRestaurants := some 4 },
    mealPlanCode := some "AI", totalPriceForGroup := some 4200,
    departureDate := some "2026-02-15", returnDate := some "2026-02-22" }

def tPkgStd : HotelPackage :=
  { hotel_name := "Grand Oasis", city := "Cancun", stars := none,
    room_type := "AI", url := none, drinks24h := true, snacks24h := false,
    adult_only := some 0,
    amenities := ["All-Inclusive", "24h Drinks", "4 Restaurants"],
    price := 4200,
    dates := ⟨⟨2026, 2, 15, 0, 0, 0⟩, ⟨2026, 2, 22, 0, 0, 0⟩⟩ }

/-- Witness for C9: a 4200-priced package is kept at budget 4200 and
dropped at a budget one cent lower. -/
theorem filter_packages_budget_boundary_witness :
    filter_packages [tPkg] 4200 = [tPkgStd] ∧
      filter_packages [tPkg] (4200 - 1 / 100) = [] := by
  have hv : validateStdPackage (transform_transat_package tPkg) =
      some tPkgStd := rfl
  refine ⟨(filter_packages_budget_boundary tPkg 4200 tPkgStd hv).1 rfl,
    (filter_packages_budget_boundary tPkg (4200 - 1 / 100) tPkgStd hv).2 ?_⟩
  show (4200 : ℚ) - 1 / 100 < 4200
  norm_num

end Filter

/-- Python `str.lower()` (character-wise lowercasing; the hotel keys here
are ASCII). -/
def pyLower (s : String) : String := String.mk (s.toList.map Char.toLower)

namespace Summarize

/-! ### step2_5_summarize.py : Gemini summarization batch

One Gemini call either returns a parsed `ReviewSummary`, raises
`SafetyBlockError` (no candidates / `finish_reason == 2`), or raises an
ordinary parse/network error.  The `@retry` decorator has no exception
filter, so every kind of exception is retried; `reraise=True` re-raises
the last attempt's original exception after `stop_after_attempt(3)`. -/

inductive GeminiAttempt where
  | ok (s : ReviewSummary)
  | safetyBlocked
  | failed
deriving DecidableEq, Repr

inductive SumErr where
  | safety
  | other
deriving DecidableEq, Repr

def attemptExcept : GeminiAttempt → Except SumErr ReviewSummary
  | .ok s => .ok s
  | .safetyBlocked => .error .safety
  | .failed => .error .other

/-- tenacity `wait_exponential(multiplier=1, min=2, max=10)`: the sleep
after failed attempt `n` is `max(min, min(multiplier * 2^(n-1), max))`. -/
def waitExponential (n : ℕ) : ℕ := max (max 0 2) (min (2 ^ (n - 1)) 10)

/-- One tenacity run with exponential wait and `reraise=True`: the result,
the number of attempts made, and the sleeps performed. -/
def retryExpRun (f : ℕ → GeminiAttempt) :
    (left : ℕ) → (attemptNo : ℕ) →
      Except SumErr ReviewSummary × ℕ × List ℕ
  | 0, n => (attemptExcept (f n), 1, [])
  | 1, n => (attemptExcept (f n), 1, [])
  | left + 2, n =>
    match attemptExcept (f n) with
    | .ok s => (.ok s, 1, [])
    | .error _ =>
      let rest := retryExpRun f (left + 1) (n + 1)
      (rest.1, rest.2.1 + 1, waitExponential n :: rest.2.2)

/-- Embeds `summarize_reviews_with_gemini(hotel_name, reviews, …)` under its
retry decorator: an empty review list short-circuits to a canned summary
on the first attempt; otherwise the Gemini call chain runs with up to 3
attempts. -/
def summarize_reviews_with_gemini (reviews : List Review)
    (f : ℕ → GeminiAttempt) :
    Except SumErr ReviewSummary × ℕ × List ℕ :=
  if reviews = [] then
    (.ok ⟨[], [], [], "No reviews available for analysis.", 0⟩, 1, [])
  else retryExpRun f 3 1

/-- One entry of `summarized_ratings_map`: the rating dict, possibly with
a `review_summary` attached. -/
structure SumEntry where
  rating : GoogleRating
  summary : Option ReviewSummary
deriving DecidableEq, Repr

/-- The `summarized_ratings_map` is a Python dict keyed by lowercased hotel
name: insertion order with in-place overwrite. -/
abbrev SumMap := List (String × SumEntry)

def dictInsert (m : SumMap) (k : String) (v : SumEntry) : SumMap :=
  if m.any (fun p => p.1 = k) then
    m.map fun p => if p.1 = k then (k, v) else p
  else m ++ [(k, v)]

def lookupMap (m : SumMap) (k : String) : Option SumEntry :=
  (m.filter (fun p => p.1 = k)).head?.map (·.2)

/-- Embeds `save_progress(ratings_data, summarized_map, output_file)`: the file
contents written after each hotel — the map's entries in the order of the
input ratings, restricted to hotels already in the map. -/
def save_progress (ratings_data : List GoogleRating) (m : SumMap) :
    List SumEntry :=
  ratings_data.filterMap fun r => lookupMap m (pyLower r.hotel_name)

def lookupSummaries (l : List (String × ReviewSummary)) (k : String) :
    Option ReviewSummary :=
  (l.filter (fun p => p.1 = k)).head?.map (·.2)

/-- The caching/truncation options of `process_hotel_ratings`. -/
structure SumCfg where
  skipExisting : Bool
  existingSummaries : List (String × ReviewSummary)
  maxReviewsPerHotel : Option ℕ := none
deriving Repr

def capReviews (cfg : SumCfg) (r : GoogleRating) : List Review :=
  match cfg.maxReviewsPerHotel with
  | some m => r.reviews.take m
  | none => r.reviews

/-- Result of the batch loop: the final `summarized_ratings_map`, the
hotels whose Gemini call chain was actually invoked, and whether the run
was halted by a safety block. -/
structure LoopResult where
  map : SumMap
  calls : List String
  haltedBySafety : Bool
deriving DecidableEq, Repr

/-- The `for rating in ratings_data` loop of `process_hotel_ratings`:
skip hotels with a cached summary, record review-less hotels without
calling the API, and otherwise call the retried summarizer — recording
the summary on success, breaking the whole loop on a `SafetyBlockError`
(after saving), and merely continuing on any other error.  A
`max_new_summaries` budget can stop the loop early after a success.
`save_progress` runs after every hotel; the persisted file always
reflects the returned map. -/
def processLoop (att : String → ℕ → GeminiAttempt) (cfg : SumCfg) :
    List GoogleRating → Option ℤ → SumMap → LoopResult
  | [], _, _acc => ⟨_acc, [], false⟩
  | r :: rest, maxNew, acc =>
    let key := pyLower r.hotel_name
    let existing :=
      if cfg.skipExisting ∧ cfg.existingSummaries ≠ [] then
        lookupSummaries cfg.existingSummaries key
      else none
    match existing with
    | some s => processLoop att cfg rest maxNew (dictInsert acc key ⟨r, some s⟩)
    | none =>
      if r.reviews = [] then
        processLoop att cfg rest maxNew (dictInsert acc key ⟨r, none⟩)
      else
        match (summarize_reviews_with_gemini (capReviews cfg r)
            (att r.hotel_name)).1 with
        | .ok s =>
          let acc' := dictInsert acc key ⟨r, some s⟩
          match maxNew with
          | some n =>
            if n - 1 ≤ 0 then ⟨acc', [r.hotel_name], false⟩
            else
              let res := processLoop att cfg rest (some (n - 1)) acc'
              ⟨res.map, r.hotel_name :: res.calls, res.haltedBySafety⟩
          | none =>
            let res := processLoop att cfg rest none acc'
            ⟨res.map, r.hotel_name :: res.calls, res.haltedBySafety⟩
        | .error .safety => ⟨dictInsert acc key ⟨r, none⟩, [r.hotel_name], true⟩
        | .error .other =>
          let res := processLoop att cfg rest maxNew (dictInsert acc key ⟨r, none⟩)
          ⟨res.map, r.hotel_name :: res.calls, res.haltedBySafety⟩

/-- Embeds `process_hotel_ratings` (its batch part): run the loop from the
pre-loaded `existing_output` map, then persist the final map. -/
def process_hotel_ratings (att : String → ℕ → GeminiAttempt) (cfg : SumCfg)
    (ratings_data : List GoogleRating) (maxNew : Option ℤ)
    (existingOutput : SumMap) : List SumEntry × LoopResult :=
  let res := processLoop att cfg ratings_data maxNew existingOutput
  (save_progress ratings_data res.map, res)

theorem retryExp_always_safety (f : ℕ → GeminiAttempt)
    (hf : ∀ n, f n = .safetyBlocked) :
    retryExpRun f 3 1 =
      (.error .safety, 3, [waitExponential 1, waitExponential 2]) := by
  simp [retryExpRun, hf 1, hf 2, hf 3, attemptExcept]

theorem retryExp_always_failed (f : ℕ → GeminiAttempt)
    (hf : ∀ n, f n = .failed) :
    retryExpRun f 3 1 =
      (.error .other, 3, [waitExponential 1, waitExponential 2]) := by
  simp [retryExpRun, hf 1, hf 2, hf 3, attemptExcept]

theorem processLoop_append (att : String → ℕ → GeminiAttempt) (cfg : SumCfg)
    (xs ys : List GoogleRating) :
    ∀ acc : SumMap,
      processLoop att cfg (xs ++ ys) none acc =
        (let rx := processLoop att cfg xs none acc
         if rx.haltedBySafety then rx
         else
           let ry := processLoop att cfg ys none rx.map
           ⟨ry.map, rx.calls ++ ry.calls, ry.haltedBySafety⟩) := by
  induction xs with
  | nil =>
    intro acc
    simp [processLoop]
  | cons r xs ih =>
    intro acc
    show processLoop att cfg (r :: (xs ++ ys)) none acc = _
    rw [processLoop, processLoop]
    dsimp only
    set key := pyLower r.hotel_name with hkey
    set existing :=
      (if cfg.skipExisting ∧ cfg.existingSummaries ≠ [] then
        lookupSummaries cfg.existingSummaries key
      else none) with hex
    cases existing with
    | some s => exact ih (dictInsert acc key ⟨r, some s⟩)
    | none =>
      by_cases hr : r.reviews = []
      · rw [if_pos hr, if_pos hr]
        exact ih (dictInsert acc key ⟨r, none⟩)
      · rw [if_neg hr, if_neg hr]
        cases hsum : (summarize_reviews_with_gemini (capReviews cfg r)
            (att r.hotel_name)).1 with
        | ok s =>
          dsimp only
          rw [ih (dictInsert acc key ⟨r, some s⟩)]
          cases hx : (processLoop att cfg xs none
              (dictInsert acc key ⟨r, some s⟩)).haltedBySafety with
          | true => simp [hx]
          | false => simp [hx]
        | error e =>
          cases e with
          | safety => simp
          | other =>
            dsimp only
            rw [ih (dictInsert acc key ⟨r, none⟩)]
            cases hx : (processLoop att cfg xs none
                (dictInsert acc key ⟨r, none⟩)).haltedBySafety with
            | true => simp [hx]
            | false => simp [hx]

/-- Claim C8: In the summarization batch (with the default option set): the
retried Gemini call makes at most 3 attempts with exponential backoff
sleeps all within [2, 10] seconds (on exhaustion exactly
`[waitExponential 1, waitExponential 2]`); a hotel whose call chain is
safety-blocked halts the run — it is recorded without a summary, no
subsequent hotel is summarized, and the map persisted by `save_progress`
holds exactly the hotels processed up to that point; a hotel whose call
chain fails ordinarily is recorded without a summary and the batch
continues over the remaining hotels. -/
theorem summarize_safety_halts_failure_continues
    (att : String → ℕ → GeminiAttempt) (cfg : SumCfg)
    (before after : List GoogleRating) (r : GoogleRating) (acc : SumMap)
    (f : ℕ → GeminiAttempt)
    (hcap : cfg.maxReviewsPerHotel = none)
    (hskip : (if cfg.skipExisting ∧ cfg.existingSummaries ≠ [] then
        lookupSummaries cfg.existingSummaries (pyLower r.hotel_name)
      else none) = none)
    (hrev : r.reviews ≠ [])
    (hbefore : (processLoop att cfg before none acc).haltedBySafety
      = false) :
    ((retryExpRun f 3 1).2.1 ≤ 3 ∧
      (∀ w ∈ (retryExpRun f 3 1).2.2, 2 ≤ w ∧ w ≤ 10)) ∧
    ((∀ n, f n = GeminiAttempt.failed) →
      retryExpRun f 3 1 =
        (.error .other, 3, [waitExponential 1, waitExponential 2])) ∧
    ((∀ n, att r.hotel_name n = GeminiAttempt.safetyBlocked) →
      processLoop att cfg (before ++ r :: after) none acc =
        ⟨dictInsert (processLoop att cfg before none acc).map
            (pyLower r.hotel_name) ⟨r, none⟩,
          (processLoop att cfg before none acc).calls ++ [r.hotel_name],
          true⟩) ∧
    ((∀ n, att r.hotel_name n = GeminiAttempt.failed) →
      processLoop att cfg (before ++ r :: after) none acc =
        ⟨(processLoop att cfg after none
            (dictInsert (processLoop att cfg before none acc).map
              (pyLower r.hotel_name) ⟨r, none⟩)).map,
          (processLoop att cfg before none acc).calls ++
            r.hotel_name :: (processLoop att cfg after none
              (dictInsert (processLoop att cfg before none acc).map
                (pyLower r.hotel_name) ⟨r, none⟩)).calls,
          (processLoop att cfg after none
            (dictInsert (processLoop att cfg before none acc).map
              (pyLower r.hotel_name) ⟨r, none⟩)).haltedBySafety⟩) := by
  have hsummE : ∀ g : ℕ → GeminiAttempt,
      summarize_reviews_with_gemini (capReviews cfg r) g =
        retryExpRun g 3 1 := by
    intro g
    rw [show capReviews cfg r = r.reviews from by rw [capReviews, hcap]]
    rw [summarize_reviews_with_gemini, if_neg hrev]
  refine ⟨⟨?_, ?_⟩, ?_, ?_, ?_⟩
  · cases h1 : attemptExcept (f 1) with
    | ok s => simp [retryExpRun, h1]
    | error e =>
      cases h2 : attemptExcept (f 2) with
      | ok s => simp [retryExpRun, h1, h2]
      | error e2 => simp [retryExpRun, h1, h2]
  · cases h1 : attemptExcept (f 1) with
    | ok s => simp [retryExpRun, h1]
    | error e =>
      cases h2 : attemptExcept (f 2) with
      | ok s =>
        simp only [retryExpRun, h1, h2]
        decide
      | error e2 =>
        simp only [retryExpRun, h1, h2]
        intro w hw
        rcases List.mem_cons.mp hw with h | h
        · subst h; decide
        · rcases List.mem_cons.mp h with h' | h'
          · subst h'; decide
          · simp at h'
  · intro hf
    exact retryExp_always_failed f hf
  · intro hsafety
    rw [processLoop_append att cfg before (r :: after) acc]
    dsimp only
    rw [hbefore]
    simp only [Bool.false_eq_true, if_false]
    rw [processLoop]
    dsimp only
    rw [hskip]
    dsimp only
    rw [if_neg hrev]
    rw [hsummE (att r.hotel_name), retryExp_always_safety _ hsafety]
  · intro hfail
    rw [processLoop_append att cfg before (r :: after) acc]
    dsimp only
    rw [hbefore]
    simp only [Bool.false_eq_true, if_false]
    rw [processLoop]
    dsimp only
    rw [hskip]
    dsimp only
    rw [if_neg hrev]
    rw [hsummE (att r.hotel_name), retryExp_always_failed _ hfail]

def rsumA : ReviewSummary :=
  ⟨["Pool"], ["Noise"], [], "Good overall.", 1⟩

def gA : GoogleRating :=
  { hotel_name := "Hotel A",
    reviews := [⟨"Great pool and lovely staff", 5, "2 weeks ago", none⟩] }

def gB : GoogleRating :=
  { hotel_name := "Hotel B",
    reviews := [⟨"Terrible experience overall", 1, "a month ago", none⟩] }

def gC : GoogleRating :=
  { hotel_name := "Hotel C",
    reviews := [⟨"Decent but noisy rooms", 3, "Unknown", none⟩] }

def attW (h : String) (_ : ℕ) : GeminiAttempt :=
  if h = "Hotel B" then .safetyBlocked else .ok rsumA

def cfgW : SumCfg := { skipExisting := true, existingSummaries := [] }

/-- Witness for C8: with Hotel B safety-blocked, Hotel A's summary is
generated and persisted, Hotel B is recorded without a summary, the loop
halts, and Hotel C is never summarized. -/
theorem summarize_safety_halts_witness :
    processLoop attW cfgW [gA, gB, gC] none [] =
      ⟨[("hotel a", ⟨gA, some rsumA⟩), ("hotel b", ⟨gB, none⟩)],
        ["Hotel A", "Hotel B"], true⟩ := by
  have h := (summarize_safety_halts_failure_continues attW cfgW [gA] [gC]
    gB [] (fun _ => GeminiAttempt.failed) rfl rfl (by decide)
    (by decide)).2.2.1 (fun _ => rfl)
  exact h.trans (by decide)

end Summarize

namespace Normalize

/-! ### step3_5_normalize.py : field coercions and `normalize_hotel`

The hotel dicts come from JSON, so every coerced field holds a scalar:
`None`, a bool, an int, a float, or a string — modelled by `PyVal`.
Keys untouched by the pass are carried through the shallow copy and are
modelled by the `others` component; the `stats` `Counter` is a
diagnostics side channel that never affects the returned record and is
not part of the embedding. -/

inductive PyVal where
  | none
  | bool (b : Bool)
  | int (n : ℤ)
  | float (q : ℚ)
  | str (s : String)
deriving DecidableEq, Repr

/-- Python truthiness of a scalar. -/
def pyTruthy : PyVal → Bool
  | .none => false
  | .bool b => b
  | .int n => n ≠ 0
  | .float q => q ≠ 0
  | .str s => s ≠ ""

/-- Embeds `normalize_bool(value)`: a bool stays itself; a numeric 1 or 2 maps to
`True` and 0 to `False` (`in (1, 2)` and `== 0` are numeric equality, so
ints and floats behave alike); everything else to `None`. -/
def normalize_bool : PyVal → Option Bool
  | .bool b => some b
  | .int n =>
    if n = 1 ∨ n = 2 then some true
    else if n = 0 then some false
    else Option.none
  | .float q =>
    if q = 1 ∨ q = 2 then some true
    else if q = 0 then some false
    else Option.none
  | _ => Option.none

def digitsOkTail : List Char → Bool
  | [] => true
  | ['_'] => false
  | '_' :: c :: cs => c.isDigit && digitsOkTail cs
  | c :: cs => c.isDigit && digitsOkTail cs

/-- Digit run as `int(str)` accepts it: non-empty, single underscores
only between digits. -/
def digitsUnderscoreOk : List Char → Bool
  | [] => false
  | c :: cs => c.isDigit && digitsOkTail cs

/-- Python `int(s)` on a string: optional surrounding whitespace, optional
sign, digits with underscore separators. -/
def parsePyIntStr (s : String) : Option ℤ :=
  let cs := stripChars s.toList
  let signed : Bool × List Char :=
    match cs with
    | '-' :: rest => (true, rest)
    | '+' :: rest => (false, rest)
    | rest => (false, rest)
  if digitsUnderscoreOk signed.2 then
    let v : ℤ := digitsToNat (signed.2.filter (· ≠ '_'))
    some (if signed.1 then -v else v)
  else Option.none

/-- Python `int(value)`: identity on ints, 0/1 on bools, truncation toward
zero on floats, string parsing; `none` models a raised
`TypeError`/`ValueError`. -/
def pyIntOf : PyVal → Option ℤ
  | .none => Option.none
  | .bool b => some (if b then 1 else 0)
  | .int n => some n
  | .float q => some (q.num.tdiv q.den)
  | .str s => parsePyIntStr s

def isNoneOrEmptyStr : PyVal → Bool
  | .none => true
  | .str "" => true
  | _ => false

/-- Embeds `normalize_int(value)`: `None`/`""` sentinel to `None`, then `int(...)`
with any exception swallowed, and non-positive results to `None`. -/
def normalize_int (value : PyVal) : Option ℤ :=
  if isNoneOrEmptyStr value then Option.none
  else
    match pyIntOf value with
    | Option.none => Option.none
    | some n => if n ≤ 0 then Option.none else some n

/-- Embeds `urlparse(url).scheme` as CPython computes it: the first colon must be
preceded by a non-empty run of scheme characters starting with an ASCII
letter; the scheme is returned lowercased. -/
def schemeChar (c : Char) : Bool :=
  c.isAlpha || c.isDigit || c = '+' || c = '-' || c = '.'

def urlSchemeChars (cs : List Char) : Option (List Char) :=
  match cs.findIdx? (· = ':') with
  | Option.none => Option.none
  | some i =>
    if 0 < i ∧ (cs.headD ' ').isAlpha ∧ (cs.take i).all schemeChar then
      some ((cs.take i).map Char.toLower)
    else Option.none

/-- Python `s.replace(old, new, 1)`: replace the leftmost occurrence of a
non-empty pattern, if any. -/
def replaceFirstChars (pat rep : List Char) : List Char → List Char
  | [] => []
  | c :: cs =>
    if pat.isPrefixOf (c :: cs) then rep ++ (c :: cs).drop pat.length
    else c :: replaceFirstChars pat rep cs

def httpsChars : List Char := ['h', 't', 't', 'p', 's']

/-- The URL rewrite of `normalize_thumbnail` on a truthy string: prefix
`https:` onto protocol-relative URLs, `https://` onto scheme-less ones
(stripping leading slashes), and rewrite the first occurrence of
`"<scheme>://"` for a non-`https` scheme. -/
def normThumbChars (cs : List Char) : List Char :=
  match urlSchemeChars cs with
  | Option.none =>
    if ['/', '/'].isPrefixOf cs then 'h' :: 't' :: 't' :: 'p' :: 's' :: ':' :: cs
    else 'h' :: 't' :: 't' :: 'p' :: 's' :: ':' :: '/' :: '/' ::
      cs.dropWhile (· = '/')
  | some sch =>
    if sch ≠ httpsChars then
      replaceFirstChars (sch ++ [':', '/', '/'])
        ['h', 't', 't', 'p', 's', ':', '/', '/'] cs
    else cs

/-- Embeds `normalize_thumbnail(url)`: `None` for a falsy value, the scheme
rewrite for a truthy string; a truthy non-string would raise inside
`urlparse` (modelled as `Option.none` at the record level). -/
def normalize_thumbnail (v : PyVal) : Option PyVal :=
  if pyTruthy v = false then some PyVal.none
  else
    match v with
    | .str s => some (.str (String.mk (normThumbChars s.toList)))
    | _ => Option.none

/-- The `MEAL_PLAN_LABELS` dict lookup (`.get`, so an unknown or
non-string key yields `None`). -/
def mealPlanLabelOf : PyVal → Option String
  | .str "AI" => some "All Inclusive"
  | .str "EP" => some "European Plan (no meals)"
  | _ => Option.none

/-- Embeds `normalize_meal_plan(code)`: a falsy code becomes `(None, None)`;
otherwise the code is kept and its label looked up. -/
def normalize_meal_plan (code : PyVal) : PyVal × Option String :=
  if pyTruthy code = false then (PyVal.none, Option.none)
  else (code, mealPlanLabelOf code)

/-- Python `spa_available in ("", None)` collapses the blank sentinels to `None`
(Python `==` against `""`/`None` holds only for `""`/`None` themselves). -/
def normSpa (v : PyVal) : PyVal :=
  if v = PyVal.none ∨ v = PyVal.str "" then PyVal.none else v

def obToPyVal : Option Bool → PyVal
  | some b => .bool b
  | Option.none => .none

def oiToPyVal : Option ℤ → PyVal
  | some n => .int n
  | Option.none => .none

def osToPyVal : Option String → PyVal
  | some s => .str s
  | Option.none => .none

/-- One entry of a hotel's `packages` list, restricted to the keys the
pass touches plus the untouched remainder. -/
structure PkgRec where
  drinks24h : PyVal := .none
  snacks24h : PyVal := .none
  number_of_restaurants : PyVal := .none
  spa_available : PyVal := .none
  meal_plan_code : PyVal := .none
  meal_plan_label : PyVal := .none
  thumbnail_url : PyVal := .none
  others : List (String × PyVal) := []
deriving DecidableEq, Repr

/-- A merged-hotel dict as the pass reads it; `thumbnailPath = some v`
models the key being present with value `v`. -/
structure HotelRec where
  drinks24h : PyVal := .none
  snacks24h : PyVal := .none
  number_of_restaurants : PyVal := .none
  spa_available : PyVal := .none
  meal_plan_code : PyVal := .none
  meal_plan_label : PyVal := .none
  thumbnail_url : PyVal := .none
  thumbnailPath : Option PyVal := Option.none
  packages : List PkgRec := []
  others : List (String × PyVal) := []
deriving DecidableEq, Repr

/-- The per-package body of `normalize_hotel`'s loop. -/
def normalizePkg (p : PkgRec) : Option PkgRec :=
  match normalize_thumbnail p.thumbnail_url with
  | Option.none => Option.none
  | some thumb =>
    some { p with
      drinks24h := obToPyVal (normalize_bool p.drinks24h)
      snacks24h := obToPyVal (normalize_bool p.snacks24h)
      number_of_restaurants := oiToPyVal (normalize_int p.number_of_restaurants)
      spa_available := normSpa p.spa_available
      meal_plan_code := (normalize_meal_plan p.meal_plan_code).1
      meal_plan_label := osToPyVal (normalize_meal_plan p.meal_plan_code).2
      thumbnail_url := thumb }

/-- The Python `for` loop over packages: stops with the exception of the
first failing package. -/
def mapMPkgs (f : PkgRec → Option PkgRec) : List PkgRec → Option (List PkgRec)
  | [] => some []
  | p :: rest =>
    match f p, mapMPkgs f rest with
    | some p', some rest' => some (p' :: rest')
    | _, _ => Option.none

/-- Embeds `hotel.get("thumbnail_url") or (hotel.get("thumbnailPath") if
"thumbnailPath" in hotel else None)`. -/
def selectedThumb (h : HotelRec) : PyVal :=
  if pyTruthy h.thumbnail_url then h.thumbnail_url
  else
    match h.thumbnailPath with
    | some v => v
    | Option.none => PyVal.none

/-- Embeds `normalize_hotel(hotel, stats)`: coerce the tri-state booleans, the
restaurant count, the spa sentinel, the meal-plan code/label pair and the
thumbnail URL, and normalize each package; `Option.none` models the
function raising (which only the thumbnail rewrite can do, on a truthy
non-string value). -/
def normalize_hotel (h : HotelRec) : Option HotelRec :=
  match normalize_thumbnail (selectedThumb h),
      mapMPkgs normalizePkg h.packages with
  | some thumb, some pkgs =>
    some { h with
      drinks24h := obToPyVal (normalize_bool h.drinks24h)
      snacks24h := obToPyVal (normalize_bool h.snacks24h)
      number_of_restaurants := oiToPyVal (normalize_int h.number_of_restaurants)
      spa_available := normSpa h.spa_available
      meal_plan_code := (normalize_meal_plan h.meal_plan_code).1
      meal_plan_label := osToPyVal (normalize_meal_plan h.meal_plan_code).2
      thumbnail_url := thumb
      packages := pkgs }
  | _, _ => Option.none

/-- Counterexample to C10 as stated: on the thumbnail URL
`"AHTTPS://aahttps://b"` (scheme `ahttps`, rewritten at its first
lowercase occurrence, which sits mid-string), `normalize_hotel` is not
idempotent — the second application rewrites the URL again. -/
theorem normalize_hotel_idempotence_counterexample :
    normalize_hotel { thumbnail_url := PyVal.str "AHTTPS://aahttps://b" } =
        some { thumbnail_url := PyVal.str "AHTTPS://ahttps://b" } ∧
      normalize_hotel { thumbnail_url := PyVal.str "AHTTPS://ahttps://b" } =
        some { thumbnail_url := PyVal.str "AHTTPS://https://b" } ∧
      ({ thumbnail_url := PyVal.str "AHTTPS://ahttps://b" } : HotelRec) ≠
        { thumbnail_url := PyVal.str "AHTTPS://https://b" } := by
  refine ⟨?_, ?_, ?_⟩ <;> decide

/-! ### The amended idempotence: every coercion except the adversarial
scheme-rewrite case maps already-normalized values to themselves. -/

theorem normBool_fix (v : PyVal) :
    obToPyVal (normalize_bool (obToPyVal (normalize_bool v))) =
      obToPyVal (normalize_bool v) := by
  cases hv : normalize_bool v with
  | none => rfl
  | some b => rfl

theorem normalize_int_pos {v : PyVal} {n : ℤ}
    (h : normalize_int v = some n) : 0 < n := by
  unfold normalize_int at h
  by_cases h1 : isNoneOrEmptyStr v = true
  · rw [if_pos h1] at h
    exact Option.noConfusion h
  · rw [if_neg h1] at h
    cases h2 : pyIntOf v with
    | none => rw [h2] at h; exact Option.noConfusion h
    | some m =>
      rw [h2] at h
      dsimp only at h
      by_cases h3 : m ≤ 0
      · rw [if_pos h3] at h
        exact Option.noConfusion h
      · rw [if_neg h3] at h
        injection h with h4
        omega

theorem normInt_fix (v : PyVal) :
    oiToPyVal (normalize_int (oiToPyVal (normalize_int v))) =
      oiToPyVal (normalize_int v) := by
  cases hv : normalize_int v with
  | none => rfl
  | some n =>
    have hpos := normalize_int_pos hv
    show oiToPyVal (normalize_int (.int n)) = oiToPyVal (some n)
    unfold normalize_int
    rw [if_neg (by simp [isNoneOrEmptyStr])]
    show oiToPyVal (if n ≤ 0 then Option.none else some n) = _
    rw [if_neg (by omega)]

theorem normSpa_fix (v : PyVal) : normSpa (normSpa v) = normSpa v := by
  unfold normSpa
  by_cases h : v = PyVal.none ∨ v = PyVal.str ""
  · rw [if_pos h, if_pos (Or.inl rfl)]
  · rw [if_neg h, if_neg h]

theorem normMeal_fix (c : PyVal) :
    normalize_meal_plan (normalize_meal_plan c).1 = normalize_meal_plan c := by
  unfold normalize_meal_plan
  by_cases h : pyTruthy c = false
  · rw [if_pos h]
    rw [show ((PyVal.none, (Option.none : Option String)).1) = PyVal.none
      from rfl]
    rw [if_pos (show pyTruthy PyVal.none = false from rfl)]
  · rw [if_neg h]
    rw [show ((c, mealPlanLabelOf c).1) = c from rfl]
    rw [if_neg h]

theorem urlScheme_https (t : List Char) :
    urlSchemeChars ('h' :: 't' :: 't' :: 'p' :: 's' :: ':' :: t) =
      some httpsChars := by
  unfold urlSchemeChars
  rw [show List.findIdx? (fun c => decide (c = ':'))
      ('h' :: 't' :: 't' :: 'p' :: 's' :: ':' :: t) = some 5 from by
    simp [List.findIdx?_cons]]
  dsimp only
  have hcond : 0 < 5 ∧
      (('h' :: 't' :: 't' :: 'p' :: 's' :: ':' :: t).headD ' ').isAlpha =
        true ∧
      (List.take 5 ('h' :: 't' :: 't' :: 'p' :: 's' :: ':' :: t)).all
        schemeChar = true := by
    refine ⟨by norm_num, rfl, ?_⟩
    rw [show List.take 5 ('h' :: 't' :: 't' :: 'p' :: 's' :: ':' :: t) =
      ['h', 't', 't', 'p', 's'] from rfl]
    decide
  rw [if_pos hcond]
  rw [show List.take 5 ('h' :: 't' :: 't' :: 'p' :: 's' :: ':' :: t) =
    ['h', 't', 't', 'p', 's'] from rfl]
  rfl

theorem replaceFirst_at_head (pat rep rest : List Char) (hne : pat ≠ []) :
    replaceFirstChars pat rep (pat ++ rest) = rep ++ rest := by
  match pat, hne with
  | c :: cs, _ =>
    show replaceFirstChars (c :: cs) rep (c :: (cs ++ rest)) = rep ++ rest
    unfold replaceFirstChars
    rw [if_pos (by
      rw [ List.isPrefixOf_iff_prefix]
      exact List.prefix_append _ _)]
    congr 1
    exact List.drop_left _ _

/-- A thumbnail string the rewrite handles idempotently: no scheme, the
scheme `https`, or a URL literally starting with its own (lowercase)
scheme followed by `://`. -/
def thumbStrOK (s : String) : Bool :=
  match urlSchemeChars s.toList with
  | Option.none => true
  | some sch => sch = httpsChars || (sch ++ [':', '/', '/']).isPrefixOf s.toList

def thumbValOK : PyVal → Bool
  | .str s => thumbStrOK s
  | _ => true

theorem normThumb_https_fix (t : List Char) :
    normThumbChars ('h' :: 't' :: 't' :: 'p' :: 's' :: ':' :: t) =
      'h' :: 't' :: 't' :: 'p' :: 's' :: ':' :: t := by
  unfold normThumbChars
  rw [urlScheme_https]
  dsimp only
  rw [if_neg (by simp)]

theorem normThumb_props (s : List Char) (hne : s ≠ [])
    (hok : (match urlSchemeChars s with
      | Option.none => true
      | some sch =>
        sch = httpsChars || (sch ++ [':', '/', '/']).isPrefixOf s) = true) :
    normThumbChars (normThumbChars s) = normThumbChars s ∧
      normThumbChars s ≠ [] := by
  cases hsch : urlSchemeChars s with
  | none =>
    by_cases hpp : (['/', '/'] : List Char).isPrefixOf s
    · have h1 : normThumbChars s =
          'h' :: 't' :: 't' :: 'p' :: 's' :: ':' :: s := by
        unfold normThumbChars
        rw [hsch]
        dsimp only
        rw [if_pos hpp]
      refine ⟨?_, by rw [h1]; simp⟩
      rw [h1, normThumb_https_fix]
    · have h1 : normThumbChars s =
          'h' :: 't' :: 't' :: 'p' :: 's' :: ':' :: '/' :: '/' ::
            s.dropWhile (· = '/') := by
        unfold normThumbChars
        rw [hsch]
        dsimp only
        rw [if_neg (by simpa using hpp)]
      refine ⟨?_, by rw [h1]; simp⟩
      rw [h1, normThumb_https_fix]
  | some sch =>
    rw [hsch] at hok
    dsimp only at hok
    by_cases hhttps : sch = httpsChars
    · have h1 : normThumbChars s = s := by
        unfold normThumbChars
        rw [hsch]
        dsimp only
        rw [if_neg (by simpa using hhttps)]
      refine ⟨?_, by rw [h1]; exact hne⟩
      rw [h1, h1]
    · have hpre : (sch ++ [':', '/', '/']).isPrefixOf s = true := by
        rcases Bool.or_eq_true_iff.mp hok with h | h
        · exact absurd (by simpa using h) hhttps
        · exact h
      rw [ List.isPrefixOf_iff_prefix] at hpre
      rcases hpre with ⟨rest, hs⟩
      have h1 : normThumbChars s =
          'h' :: 't' :: 't' :: 'p' :: 's' :: ':' :: '/' :: '/' :: rest := by
        unfold normThumbChars
        rw [hsch]
        dsimp only
        rw [if_pos (by simpa using hhttps)]
        rw [← hs]
        rw [replaceFirst_at_head _ _ _ (by simp)]
        rfl
      refine ⟨?_, by rw [h1]; simp⟩
      rw [h1, normThumb_https_fix]

theorem normalize_thumbnail_fix {v w : PyVal} (hok : thumbValOK v = true)
    (hw : normalize_thumbnail v = some w) :
    normalize_thumbnail w = some w ∧
      (pyTruthy w = false → w = PyVal.none) := by
  unfold normalize_thumbnail at hw
  by_cases ht : pyTruthy v = false
  · rw [if_pos ht] at hw
    injection hw with hw
    subst hw
    exact ⟨rfl, fun _ => rfl⟩
  · rw [if_neg ht] at hw
    cases v with
    | none => exact absurd rfl ht
    | bool b => exact Option.noConfusion hw
    | int n => exact Option.noConfusion hw
    | float q => exact Option.noConfusion hw
    | str s =>
      injection hw with hw
      subst hw
      have hne : s.toList ≠ [] := by
        intro hc
        have hs : s = "" := by
          cases s with
          | mk d =>
            have hd : d = [] := hc
            rw [hd]
        rw [hs] at ht
        exact ht rfl
      have hprops := normThumb_props s.toList hne (by
        have h0 := hok
        unfold thumbValOK thumbStrOK at h0
        exact h0)
      have houtne : String.mk (normThumbChars s.toList) ≠ "" := by
        intro hc
        exact hprops.2 (congrArg String.data hc)
      refine ⟨?_, ?_⟩
      · unfold normalize_thumbnail
        rw [if_neg (by
          show ¬(pyTruthy (.str (String.mk (normThumbChars s.toList))) = false)
          intro hc
          exact houtne (by simpa [pyTruthy] using hc))]
        dsimp only
        rw [show (String.mk (normThumbChars s.toList)).toList =
            normThumbChars s.toList from rfl]
        rw [hprops.1]
      · intro hfalse
        exfalso
        have hstr : String.mk (normThumbChars s.toList) = "" := by
          simpa [pyTruthy] using hfalse
        exact houtne hstr

theorem normalize_thumbnail_none_of {v : PyVal}
    (h : normalize_thumbnail v = some PyVal.none) : pyTruthy v = false := by
  by_cases ht : pyTruthy v = false
  · exact ht
  · exfalso
    unfold normalize_thumbnail at h
    rw [if_neg ht] at h
    cases v with
    | none => exact ht rfl
    | bool b => exact Option.noConfusion h
    | int n => exact Option.noConfusion h
    | float q => exact Option.noConfusion h
    | str s =>
      dsimp only at h
      injection h with h
      exact PyVal.noConfusion h

/-- The thumbnail hypothesis of the amended claim: the hotel's selected
thumbnail value and every package's thumbnail value are handled
idempotently by the scheme rewrite. -/
def hotelThumbsOK (h : HotelRec) : Bool :=
  thumbValOK (selectedThumb h) &&
    h.packages.all (fun p => thumbValOK p.thumbnail_url)

theorem normalizePkg_fix (p p' : PkgRec)
    (hok : thumbValOK p.thumbnail_url = true)
    (hp : normalizePkg p = some p') : normalizePkg p' = some p' := by
  unfold normalizePkg at hp
  cases hw : normalize_thumbnail p.thumbnail_url with
  | none => rw [hw] at hp; exact Option.noConfusion hp
  | some thumb =>
    rw [hw] at hp
    dsimp only at hp
    injection hp with hp
    subst hp
    have hfix := normalize_thumbnail_fix hok hw
    unfold normalizePkg
    dsimp only
    rw [hfix.1]
    dsimp only
    rw [normBool_fix, normBool_fix, normInt_fix, normSpa_fix, normMeal_fix]

theorem mapMPkgs_fix :
    ∀ (l l' : List PkgRec),
      (∀ p ∈ l, thumbValOK p.thumbnail_url = true) →
      mapMPkgs normalizePkg l = some l' →
      mapMPkgs normalizePkg l' = some l' := by
  intro l
  induction l with
  | nil =>
    intro l' _ hmm
    injection hmm with hmm
    subst hmm
    rfl
  | cons p rest ih =>
    intro l' hok hmm
    unfold mapMPkgs at hmm
    cases hp : normalizePkg p with
    | none =>
      rw [hp] at hmm
      exact Option.noConfusion hmm
    | some p' =>
      rw [hp] at hmm
      cases hr : mapMPkgs normalizePkg rest with
      | none =>
        rw [hr] at hmm
        exact Option.noConfusion hmm
      | some rest' =>
        rw [hr] at hmm
        dsimp only at hmm
        injection hmm with hmm
        subst hmm
        have h1 := normalizePkg_fix p p' (hok p (by simp)) hp
        have h2 := ih rest' (fun q hq => hok q (List.mem_cons_of_mem _ hq)) hr
        unfold mapMPkgs
        rw [h1, h2]

/-- Claim C10, amended: `normalize_hotel` is idempotent on the record it
returns for every hotel whose thumbnail URLs (the hotel's selected one
and each package's) are either non-strings, scheme-less, `https`-schemed,
or written with their own lowercase scheme at the start — every field
coercion maps already-normalized values to themselves.  (The excluded
case is the counterexample's: a non-`https` scheme whose lowercase
`"scheme://"` first occurs later in the string.) -/
theorem normalize_hotel_idempotent_amended (h h' : HotelRec)
    (hok : hotelThumbsOK h = true)
    (hn : normalize_hotel h = some h') :
    normalize_hotel h' = some h' := by
  have hok' : thumbValOK (selectedThumb h) = true ∧
      ∀ p ∈ h.packages, thumbValOK p.thumbnail_url = true := by
    simpa [hotelThumbsOK, List.all_eq_true] using hok
  have hok1 := hok'.1
  have hok2 := hok'.2
  unfold normalize_hotel at hn
  cases hw : normalize_thumbnail (selectedThumb h) with
  | none => rw [hw] at hn; exact Option.noConfusion hn
  | some thumb =>
    rw [hw] at hn
    cases hpk : mapMPkgs normalizePkg h.packages with
    | none => rw [hpk] at hn; exact Option.noConfusion hn
    | some pkgs =>
      rw [hpk] at hn
      dsimp only at hn
      injection hn with hn
      subst hn
      have hfix := normalize_thumbnail_fix hok1 hw
      have hpfix := mapMPkgs_fix h.packages pkgs hok2 hpk
      have hsel : normalize_thumbnail (selectedThumb
          { h with
            drinks24h := obToPyVal (normalize_bool h.drinks24h)
            snacks24h := obToPyVal (normalize_bool h.snacks24h)
            number_of_restaurants :=
              oiToPyVal (normalize_int h.number_of_restaurants)
            spa_available := normSpa h.spa_available
            meal_plan_code := (normalize_meal_plan h.meal_plan_code).1
            meal_plan_label := osToPyVal (normalize_meal_plan h.meal_plan_code).2
            thumbnail_url := thumb
            packages := pkgs }) = some thumb := by
        unfold selectedThumb
        dsimp only
        by_cases hq : pyTruthy thumb = true
        · rw [if_pos hq]
          exact hfix.1
        · have hthumb : thumb = PyVal.none :=
            hfix.2 (Bool.not_eq_true _ ▸ hq)
          rw [if_neg hq]
          have hsel0 : pyTruthy (selectedThumb h) = false := by
            apply normalize_thumbnail_none_of
            rw [hthumb] at hw
            exact hw
          have hurl : ¬(pyTruthy h.thumbnail_url = true) := by
            intro hu
            have heq : selectedThumb h = h.thumbnail_url := by
              unfold selectedThumb
              rw [if_pos hu]
            rw [heq] at hsel0
            rw [hsel0] at hu
            exact Bool.noConfusion hu
          have heq2 : selectedThumb h =
              (match h.thumbnailPath with
                | some v => v
                | Option.none => PyVal.none) := by
            unfold selectedThumb
            rw [if_neg hurl]
          rw [← heq2]
          exact hw
      unfold normalize_hotel
      rw [hsel]
      dsimp only
      rw [hpfix]
      dsimp only
      rw [normBool_fix, normBool_fix, normInt_fix, normSpa_fix, normMeal_fix]

def hGood : HotelRec :=
  { drinks24h := .int 2, snacks24h := .int 0,
    number_of_restaurants := .str "0", spa_available := .str "",
    meal_plan_code := .str "AI", meal_plan_label := PyVal.none,
    thumbnail_url := .str "//example.com/photo.jpg",
    packages := [{ meal_plan_code := .str "EP", drinks24h := .int 1,
                   number_of_restaurants := .str "3",
                   spa_available := .str "No",
                   thumbnail_url := PyVal.none }] }

def hGoodNorm : HotelRec :=
  { drinks24h := .bool true, snacks24h := .bool false,
    number_of_restaurants := PyVal.none, spa_available := PyVal.none,
    meal_plan_code := .str "AI", meal_plan_label := .str "All Inclusive",
    thumbnail_url := .str "https://example.com/photo.jpg",
    packages := [{ meal_plan_code := .str "EP",
                   meal_plan_label := .str "European Plan (no meals)",
                   drinks24h := .bool true, snacks24h := PyVal.none,
                   number_of_restaurants := .int 3,
                   spa_available := .str "No",
                   thumbnail_url := PyVal.none }] }

/-- Witness for the amended C10: the repository's own normalization test
fixture (protocol-relative thumbnail, tri-state flags, blank sentinels)
normalizes to a fixed point. -/
theorem normalize_hotel_idempotent_amended_witness :
    hotelThumbsOK hGood = true ∧
      normalize_hotel hGood = some hGoodNorm ∧
      normalize_hotel hGoodNorm = some hGoodNorm := by
  refine ⟨by decide, by decide, ?_⟩
  exact normalize_hotel_idempotent_amended hGood hGoodNorm (by decide)
    (by decide)

end Normalize

end TravelTools
